import Mathlib

/-!
# Lost Buddy.in — authentication flow (`auth.js`)

A shallow embedding of the signup and login submit handlers of `auth.js`
together with the helpers they use (`emailRx`, `sha256hex`, the account map
kept under `lb_accounts`, the session kept under `lb_current`).

Conventions of the embedding:

* a JavaScript string is a list of characters (`JSString`); its `length`
  counts UTF-16 code units (`jsLength`);
* the built-ins whose result depends on the host (Unicode lower-casing, the
  SHA-256 digest) are fields of a `Runtime`; `Date.now()` is an argument;
* the account map is the list of own properties of the parsed `lb_accounts`
  object, in property order, each holding an account record;
* a handler returns the message it shows (as an outcome) and the new content
  of the two `localStorage` slots;
* `JSON.parse` is a parameter as well; `loadAccounts` and the handlers are also
  followed on a blob that does not hold such a map (`JSValue`, `signupOn`,
  `loginOn`), where they can end with an exception.
-/

namespace Auth

/-! ## Strings -/

/-- A JavaScript string, as its sequence of characters. -/
abbrev JSString := List Char

/-- The `length` of a string: its number of UTF-16 code units. -/
def jsLength (s : JSString) : Nat :=
  (s.map fun c => if c.toNat < 0x10000 then 1 else 2).sum

/-- White space and line terminators of ECMAScript: what `trim` strips and what
`\s` matches. -/
def isWhiteSpace (c : Char) : Bool :=
  let n := c.toNat
  n == 0x09 || n == 0x0A || n == 0x0B || n == 0x0C || n == 0x0D || n == 0x20 ||
  n == 0xA0 || n == 0x1680 || (0x2000 ≤ n && n ≤ 0x200A) || n == 0x2028 ||
  n == 0x2029 || n == 0x202F || n == 0x205F || n == 0x3000 || n == 0xFEFF

/-- What `\d` matches: the ten ASCII digits. -/
def isDigit (c : Char) : Bool :=
  48 ≤ c.toNat && c.toNat ≤ 57

/-- `String.prototype.trimStart`. -/
def trimStart (s : JSString) : JSString :=
  s.dropWhile isWhiteSpace

/-- `String.prototype.trimEnd`. -/
def trimEnd (s : JSString) : JSString :=
  (s.reverse.dropWhile isWhiteSpace).reverse

/-- `String.prototype.trim`. -/
def trim (s : JSString) : JSString :=
  trimEnd (trimStart s)

/-! ## Regular expressions

Both patterns of `auth.js` are anchored sequences of single-character classes,
each taken once or one-or-more times. -/

/-- One item of an anchored pattern: a character class, once or with `+`. -/
inductive RxItem where
  | one (p : Char → Bool)
  | plus (p : Char → Bool)

/-- `RegExp.prototype.test` for `^items$`: some way of splitting the whole
input among the items exists. -/
def rxTest : List RxItem → JSString → Bool
  | [], [] => true
  | [], _ :: _ => false
  | _ :: _, [] => false
  | .one p :: items, c :: s => p c && rxTest items s
  | .plus p :: items, c :: s => p c && (rxTest items s || rxTest (.plus p :: items) s)

/-- The class `[^\s@]`. -/
def notSpaceAt (c : Char) : Bool :=
  !(isWhiteSpace c) && c != '@'

/-- `emailRx = /^[^\s@]+@[^\s@]+\.[^\s@]+$/`. -/
def emailRx : List RxItem :=
  [.plus notSpaceAt, .one (· == '@'), .plus notSpaceAt, .one (· == '.'), .plus notSpaceAt]

/-- The pattern `/^\d{10}$/` of the mobile check. -/
def mobileRx : List RxItem :=
  List.replicate 10 (.one isDigit)

/-! ## Host built-ins -/

/-- The built-ins of the host that the handlers call and whose value is not
fixed by `auth.js`: `String.prototype.toLowerCase` and the SHA-256 digest of
`crypto.subtle`. -/
structure Runtime where
  toLowerCase : JSString → JSString
  digest : List UInt8 → List UInt8

/-- `new TextEncoder().encode(text)`: the UTF-8 bytes of the text. -/
def textEncode (text : JSString) : List UInt8 :=
  (text.map String.utf8EncodeChar).flatten

/-- `b.toString(16).padStart(2, "0")` for one byte. -/
def hexByte (b : UInt8) : JSString :=
  let digits := Nat.toDigits 16 b.toNat
  List.replicate (2 - digits.length) '0' ++ digits

/-- The encoding step of `sha256hex`: every byte as two hex digits, joined. -/
def hexEncode (bytes : List UInt8) : JSString :=
  (bytes.map hexByte).flatten

/-- `sha256hex(text)`. -/
def sha256hex (rt : Runtime) (text : JSString) : JSString :=
  let data := textEncode text
  let buf := rt.digest data
  hexEncode buf

/-! ## Data model -/

/-- An account record as stored under `lb_accounts`. -/
structure Account where
  name : JSString
  mobile : JSString
  email : JSString
  city : JSString
  passHash : JSString
  createdAt : Nat
  deriving DecidableEq, Inhabited

/-- The record kept under `lb_current`. -/
structure Session where
  name : JSString
  email : JSString
  mobile : JSString
  city : JSString
  deriving DecidableEq, Inhabited

/-- The account map: the own properties of the parsed `lb_accounts` object in
property order. -/
abbrev AccountMap := List (JSString × Account)

/-- The two `localStorage` slots used by `auth.js`. -/
structure State where
  accounts : AccountMap
  current : Option Session
  deriving DecidableEq, Inhabited

/-- The empty store with nobody logged in. -/
def State.empty : State :=
  { accounts := [], current := none }

/-- The property names of `Object.prototype`, which a plain object inherits. -/
def objectPrototypeKeys : List JSString :=
  ["constructor", "__proto__", "hasOwnProperty", "isPrototypeOf",
   "propertyIsEnumerable", "toLocaleString", "toString", "valueOf",
   "__defineGetter__", "__defineSetter__", "__lookupGetter__",
   "__lookupSetter__"].map String.toList

/-- What `accounts[key]` can evaluate to. -/
inductive PropValue where
  | undefined
  | record (a : Account)
  | inherited
  deriving DecidableEq, Inhabited

/-- `accounts[key]`: the own property when there is one, else the member of
`Object.prototype` of that name, else `undefined`. -/
def getProp (accounts : AccountMap) (key : JSString) : PropValue :=
  match accounts.lookup key with
  | some a => .record a
  | none => if key ∈ objectPrototypeKeys then .inherited else .undefined

/-- Truthiness of a property value: records and the inherited members are
objects, hence truthy. -/
def PropValue.truthy : PropValue → Bool
  | .undefined => false
  | .record _ => true
  | .inherited => true

/-- `Object.values(accounts)`. -/
def values (accounts : AccountMap) : List Account :=
  accounts.map Prod.snd

/-- `accounts[key] = record` for a key that is neither `__proto__` nor an array
index (the keys the handler sets contain `@`): an existing own property keeps
its place, a new one goes last. -/
def setProp (accounts : AccountMap) (key : JSString) (record : Account) : AccountMap :=
  if accounts.any (fun e => e.1 == key) then
    accounts.map fun e => if e.1 == key then (e.1, record) else e
  else
    accounts ++ [(key, record)]

/-! ## Signup -/

/-- The values of the fields of `signupForm` at submit time. -/
structure SignupForm where
  name : JSString
  mobile : JSString
  email : JSString
  city : JSString
  password : JSString
  confirm : JSString
  deriving DecidableEq, Inhabited

/-- The message the signup handler ends with. -/
inductive SignupOutcome where
  | InvalidName
  | InvalidMobile
  | InvalidEmail
  | PasswordTooShort
  | PasswordMismatch
  | EmailTaken
  | MobileTaken
  | Success
  deriving DecidableEq, Inhabited

/-- The text passed to `showMsg` for each outcome of the signup handler. -/
def SignupOutcome.message : SignupOutcome → String
  | .InvalidName => "Please enter your name."
  | .InvalidMobile => "Enter a valid 10-digit mobile number."
  | .InvalidEmail => "Enter a valid email address."
  | .PasswordTooShort => "Password must be at least 6 characters."
  | .PasswordMismatch => "Passwords do not match."
  | .EmailTaken => "This email is already registered. <a href=\"login.html\">Login</a>"
  | .MobileTaken => "This mobile is already registered. <a href=\"login.html\">Login</a>"
  | .Success => "Account created successfully! Redirecting to login…"

/-- The submit handler of `signupForm`. -/
def signup (rt : Runtime) (now : Nat) (form : SignupForm) (st : State) :
    SignupOutcome × State :=
  let name := trim form.name
  let mobile := trim form.mobile
  let email := rt.toLowerCase (trim form.email)
  let city := trim form.city
  let pass := form.password
  let confirm := form.confirm
  if name.isEmpty then (.InvalidName, st)
  else if !(rxTest mobileRx mobile) then (.InvalidMobile, st)
  else if !(rxTest emailRx email) then (.InvalidEmail, st)
  else if jsLength pass < 6 then (.PasswordTooShort, st)
  else if pass != confirm then (.PasswordMismatch, st)
  else
    let accounts := st.accounts
    if (getProp accounts email).truthy then (.EmailTaken, st)
    else
      let mobileTaken := (values accounts).any fun a => a.mobile == mobile
      if mobileTaken then (.MobileTaken, st)
      else
        let passHash := sha256hex rt pass
        let accounts' := setProp accounts email
          { name := name, mobile := mobile, email := email, city := city,
            passHash := passHash, createdAt := now }
        (.Success, { st with accounts := accounts' })

/-! ## Login and logout -/

/-- The message the login handler ends with. -/
inductive LoginOutcome where
  | MissingCredentials
  | AccountNotFound
  | IncorrectPassword
  | Success
  deriving DecidableEq, Inhabited

/-- The text passed to `showMsg` for each failure of the login handler; on
success the form is replaced by the welcome card instead. -/
def LoginOutcome.message : LoginOutcome → Option String
  | .MissingCredentials => some "Enter your credentials."
  | .AccountNotFound => some "No account found. <a href=\"signup.html\">Create one</a>"
  | .IncorrectPassword => some "Incorrect password."
  | .Success => none

/-- The account the login handler resolves `userInput` to: the property of
that name, and when that is falsy the first record with that mobile. -/
def resolve (accounts : AccountMap) (userInput : JSString) : PropValue :=
  let account := getProp accounts userInput
  if account.truthy then account
  else
    match (values accounts).find? fun a => a.mobile == userInput with
    | some a => .record a
    | none => .undefined

/-- The submit handler of `loginForm`. -/
def login (rt : Runtime) (user password : JSString) (st : State) :
    LoginOutcome × State :=
  let userInput := rt.toLowerCase (trim user)
  let pass := password
  if userInput.isEmpty || pass.isEmpty then (.MissingCredentials, st)
  else
    let accounts := st.accounts
    match resolve accounts userInput with
    | .undefined => (.AccountNotFound, st)
    | .inherited =>
      -- `account.passHash` is `undefined`, which no hash string equals
      (.IncorrectPassword, st)
    | .record account =>
      let hash := sha256hex rt pass
      if hash != account.passHash then (.IncorrectPassword, st)
      else
        let current : Session :=
          { name := account.name, email := account.email,
            mobile := account.mobile, city := account.city }
        (.Success, { st with current := some current })

/-- The click handler of `logoutBtn`: `localStorage.removeItem("lb_current")`. -/
def logout (st : State) : State :=
  { st with current := none }

/-- The properties of the object literal written to `lb_current`, in order. -/
def Session.entries (current : Session) : List (String × JSString) :=
  [("name", current.name), ("email", current.email), ("mobile", current.mobile),
   ("city", current.city)]

/-! ## Vocabulary of the specification -/

/-- The normalized email: trimmed, then lower-cased. -/
def normalizeEmail (rt : Runtime) (email : JSString) : JSString :=
  rt.toLowerCase (trim email)

/-- The seven checks of registration in the order of the specification, each
with the failure it stands for; `true` means the check passes. -/
def signupChecks (rt : Runtime) (form : SignupForm) (st : State) :
    List (Bool × SignupOutcome) :=
  [(!(trim form.name).isEmpty, .InvalidName),
   (rxTest mobileRx (trim form.mobile), .InvalidMobile),
   (rxTest emailRx (normalizeEmail rt form.email), .InvalidEmail),
   (decide (6 ≤ jsLength form.password), .PasswordTooShort),
   (decide (form.password = form.confirm), .PasswordMismatch),
   ((st.accounts.lookup (normalizeEmail rt form.email)).isNone, .EmailTaken),
   ((values st.accounts).all (fun a => decide (a.mobile ≠ trim form.mobile)), .MobileTaken)]

/-- The five checks on the shape of the input all pass. -/
def shapeOK (rt : Runtime) (form : SignupForm) : Bool :=
  !(trim form.name).isEmpty && rxTest mobileRx (trim form.mobile) &&
  rxTest emailRx (normalizeEmail rt form.email) && decide (6 ≤ jsLength form.password) &&
  decide (form.password = form.confirm)

/-- The record a successful signup stores. -/
def newAccount (rt : Runtime) (now : Nat) (form : SignupForm) : Account :=
  { name := trim form.name, mobile := trim form.mobile,
    email := normalizeEmail rt form.email, city := trim form.city,
    passHash := sha256hex rt form.password, createdAt := now }

/-- The session derived from an account by dropping `passHash` and `createdAt`. -/
def sessionOf (a : Account) : Session :=
  { name := a.name, email := a.email, mobile := a.mobile, city := a.city }

/-- States that the handlers can lead to from a given state. -/
inductive Later (rt : Runtime) (st₀ : State) : State → Prop where
  | refl : Later rt st₀ st₀
  | signup (now : Nat) (form : SignupForm) {st : State} :
      Later rt st₀ st → Later rt st₀ (signup rt now form st).2
  | login (user password : JSString) {st : State} :
      Later rt st₀ st → Later rt st₀ (login rt user password st).2
  | logout {st : State} : Later rt st₀ st → Later rt st₀ (logout st)

/-- States reachable from the empty store. -/
def Reachable (rt : Runtime) (st : State) : Prop :=
  Later rt State.empty st

/-- Every record is stored under a key equal to its own `email` field. -/
def KeyedByEmail (m : AccountMap) : Prop :=
  ∀ e ∈ m, e.1 = e.2.email

/-- No two records have the same mobile. -/
def MobilesDistinct (m : AccountMap) : Prop :=
  ((values m).map Account.mobile).Nodup

/-- No two records have the same email. -/
def EmailsDistinct (m : AccountMap) : Prop :=
  ((values m).map Account.email).Nodup

instance (m : AccountMap) : Decidable (KeyedByEmail m) := by
  unfold KeyedByEmail
  infer_instance

instance (m : AccountMap) : Decidable (MobilesDistinct m) := by
  unfold MobilesDistinct
  infer_instance

instance (m : AccountMap) : Decidable (EmailsDistinct m) := by
  unfold EmailsDistinct
  infer_instance

/-- Properties of `String.prototype.toLowerCase` on which the equivalence of
login by mobile and login by email rests: applying it twice changes nothing
more, it leaves a trimmed string trimmed, and it leaves digit strings alone. -/
structure LowerLaws (lower : JSString → JSString) : Prop where
  idem : ∀ s, lower (lower s) = lower s
  trimmed : ∀ s, trim (lower (trim s)) = lower (trim s)
  digits : ∀ s, s.all isDigit = true → lower s = s

/-- What the signup handler maintains of the account map: keys are the
records' own emails, are pairwise distinct, have the shape of `emailRx` and are
normalized; mobiles are pairwise distinct and have ten digits. -/
structure StoreInv (rt : Runtime) (m : AccountMap) : Prop where
  keyed : KeyedByEmail m
  keys_nodup : (m.map Prod.fst).Nodup
  mobiles : MobilesDistinct m
  email_shape : ∀ e ∈ m, rxTest emailRx e.1 = true
  mobile_shape : ∀ e ∈ m, rxTest mobileRx e.2.mobile = true
  normalized : ∀ e ∈ m, ∃ raw, e.1 = normalizeEmail rt raw

/-! ## Sample host and inputs -/

/-- Lower-casing of one character of the Basic Latin block. -/
def asciiLowerChar (c : Char) : Char :=
  if 65 ≤ c.toNat && c.toNat ≤ 90 then Char.ofNat (c.toNat + 32) else c

/-- A sample host: `toLowerCase` as it acts on ASCII text, and a stand-in
digest of 32 bytes (the handlers only compare digests for equality). -/
def sampleRuntime : Runtime where
  toLowerCase := fun s => s.map asciiLowerChar
  digest := fun data => (data ++ List.replicate 32 0).take 32

/-- The registration of the spec's scenario. -/
def ashaForm : SignupForm :=
  { name := "Asha Rao".toList, mobile := "9876543210".toList,
    email := "Asha@Test.com".toList, city := "Pune".toList,
    password := "secret1".toList, confirm := "secret1".toList }

/-- The store after the registration of the spec's scenario. -/
def ashaState : State :=
  (signup sampleRuntime 0 ashaForm State.empty).2

/-- A registration with the given name, mobile and email, and a fixed valid
password. -/
def sampleForm (name mobile email : String) : SignupForm :=
  { name := name.toList, mobile := mobile.toList, email := email.toList, city := [],
    password := "hunter22".toList, confirm := "hunter22".toList }

/-- The store after `A@x.com` registered with mobile `1111111111`. -/
def annState : State :=
  (signup sampleRuntime 0 (sampleForm "Ann" "1111111111" "A@x.com") State.empty).2

/-- The store after `b@x.com` registered next, with mobile `2222222222`. -/
def annBobState : State :=
  (signup sampleRuntime 0 (sampleForm "Bob" "2222222222" "b@x.com") annState).2

/-- A string of exactly ten decimal digits. -/
def isTenDigits (s : JSString) : Bool :=
  s.length == 10 && s.all isDigit

/-- A lowercase hexadecimal digit: `0`–`9` or `a`–`f`. -/
def isLowerHex (c : Char) : Bool :=
  (48 ≤ c.toNat && c.toNat ≤ 57) || (97 ≤ c.toNat && c.toNat ≤ 102)

/-- The value of a lowercase hexadecimal digit. -/
def hexValue (c : Char) : Nat :=
  if c.toNat ≤ 57 then c.toNat - 48 else c.toNat - 87

/-- The byte written by two lowercase hexadecimal digits. -/
def hexByteValue (s : JSString) : Nat :=
  match s with
  | [hi, lo] => 16 * hexValue hi + hexValue lo
  | _ => 0

/-- The part of a string before its first `@`. -/
def beforeAt (s : JSString) : JSString :=
  s.takeWhile (· != '@')

/-- The part of a string after its first `@`. -/
def afterAt (s : JSString) : JSString :=
  (s.dropWhile (· != '@')).drop 1

/-- The string contains a `.` that is neither its first nor its last
character. -/
def hasInnerDot (s : JSString) : Bool :=
  (s.drop 1).dropLast.contains '.'

/-- The shape `local-part@domain.tld` in the words of the specification: no
white space, exactly one `@` with at least one character before it, and after
it a `.` that is neither the first nor the last character. -/
def emailShape (s : JSString) : Bool :=
  s.all (fun c => !isWhiteSpace c) && s.count '@' == 1 && !(beforeAt s).isEmpty &&
  hasInnerDot (afterAt s)

/-! ## The persisted account blob -/

/-- A value built by `JSON.parse` (a number stands for a finite one). -/
inductive JSValue where
  | null
  | bool (b : Bool)
  | number (n : Rat)
  | string (s : JSString)
  | array (items : List JSValue)
  | object (props : List (JSString × JSValue))
  deriving Inhabited

/-- `JSON.parse` of the host; `none` stands for the `SyntaxError` it throws on
text that is not JSON. -/
abbrev JSONParse := JSString → Option JSValue

/-- `loadAccounts()`, given the item stored under `lb_accounts` (`none` when
there is no such item). -/
def loadAccounts (parse : JSONParse) (item : Option JSString) : JSValue :=
  -- `localStorage.getItem("lb_accounts") || "{}"`
  let text :=
    match item with
    | some s => if s.isEmpty then "{}".toList else s
    | none => "{}".toList
  match parse text with
  | some value => value
  | none => .object []

/-- Truthiness of a JSON value. -/
def JSValue.truthy : JSValue → Bool
  | .null => false
  | .bool b => b
  | .number n => decide (n ≠ 0)
  | .string s => !s.isEmpty
  | .array _ => true
  | .object _ => true

/-- An exception that leaves a handler uncaught. -/
inductive JSError where
  | typeError
  deriving DecidableEq, Inhabited

/-- `a[key]` for a JSON value `a` and one of the record keys `name`, `mobile`,
`email`, `city`, `passHash`, which no built-in prototype defines: reading a
property of `null` throws, an object gives its own property, every other value
gives `undefined` (`none`). -/
def JSValue.field (a : JSValue) (key : String) : Except JSError (Option JSValue) :=
  match a with
  | .null => .error .typeError
  | .object props => .ok (props.lookup key.toList)
  | _ => .ok none

/-- What `loadAccounts()` returned, in the cases the handlers are followed on:
`null` or a plain object with any JSON values as properties. Arrays and
primitives are left out. -/
inductive ParsedAccounts where
  | null
  | object (props : List (JSString × JSValue))
  deriving Inhabited

/-- The parsed value as a `ParsedAccounts`, when it is `null` or an object. -/
def ParsedAccounts.ofValue : JSValue → Option ParsedAccounts
  | .null => some .null
  | .object props => some (.object props)
  | _ => none

/-- `Object.values(accounts).some(a => a.mobile === mobile)` over the property
values in order: it stops at the first match and throws at a `null` met before
one. -/
def someMobile (mobile : JSString) : List JSValue → Except JSError Bool
  | [] => .ok false
  | a :: rest =>
    match a.field "mobile" with
    | .error e => .error e
    | .ok (some (.string m)) => if m = mobile then .ok true else someMobile mobile rest
    | .ok _ => someMobile mobile rest

/-- `Object.values(accounts).find(a => a.mobile === userInput)`, likewise. -/
def findMobile (userInput : JSString) : List JSValue → Except JSError (Option JSValue)
  | [] => .ok none
  | a :: rest =>
    match a.field "mobile" with
    | .error e => .error e
    | .ok (some (.string m)) => if m = userInput then .ok (some a) else findMobile userInput rest
    | .ok _ => findMobile userInput rest

/-- The object literal `{ name, mobile, email, city, passHash, createdAt }` as
a JSON value. -/
def Account.toValue (a : Account) : JSValue :=
  .object [("name".toList, .string a.name), ("mobile".toList, .string a.mobile),
    ("email".toList, .string a.email), ("city".toList, .string a.city),
    ("passHash".toList, .string a.passHash), ("createdAt".toList, .number a.createdAt)]

/-- `accounts[key] = value` on the properties of a plain object, for a key that
is neither `__proto__` nor an array index. -/
def setValue (props : List (JSString × JSValue)) (key : JSString) (value : JSValue) :
    List (JSString × JSValue) :=
  if props.any (fun e => e.1 == key) then
    props.map fun e => if e.1 == key then (e.1, value) else e
  else
    props ++ [(key, value)]

/-- The submit handler of `signupForm`, followed on what `loadAccounts()`
returned: it ends with an exception, or with a message and, when it calls
`saveAccounts`, the value it passes. -/
def signupOn (rt : Runtime) (now : Nat) (form : SignupForm) (accounts : ParsedAccounts) :
    Except JSError (SignupOutcome × Option JSValue) :=
  let name := trim form.name
  let mobile := trim form.mobile
  let email := rt.toLowerCase (trim form.email)
  let city := trim form.city
  let pass := form.password
  let confirm := form.confirm
  if name.isEmpty then .ok (.InvalidName, none)
  else if !(rxTest mobileRx mobile) then .ok (.InvalidMobile, none)
  else if !(rxTest emailRx email) then .ok (.InvalidEmail, none)
  else if jsLength pass < 6 then .ok (.PasswordTooShort, none)
  else if pass != confirm then .ok (.PasswordMismatch, none)
  else
    match accounts with
    | .null =>
      -- `accounts[email]` reads a property of `null`
      .error .typeError
    | .object props =>
      let taken :=
        match props.lookup email with
        | some value => value.truthy
        | none => decide (email ∈ objectPrototypeKeys)
      if taken then .ok (.EmailTaken, none)
      else
        match someMobile mobile (props.map Prod.snd) with
        | .error e => .error e
        | .ok true => .ok (.MobileTaken, none)
        | .ok false =>
          let passHash := sha256hex rt pass
          let record : Account :=
            { name := name, mobile := mobile, email := email, city := city,
              passHash := passHash, createdAt := now }
          .ok (.Success, some (.object (setValue props email record.toValue)))

/-- The properties of `current` that `JSON.stringify` writes: those that are
not `undefined`. -/
def definedProps (props : List (String × Option JSValue)) : List (JSString × JSValue) :=
  props.filterMap fun e => e.2.map fun value => (e.1.toList, value)

/-- The submit handler of `loginForm`, followed on what `loadAccounts()`
returned: it ends with an exception, or with a message and, on success, the
value it stores under `lb_current`. -/
def loginOn (rt : Runtime) (user password : JSString) (accounts : ParsedAccounts) :
    Except JSError (LoginOutcome × Option JSValue) :=
  let userInput := rt.toLowerCase (trim user)
  let pass := password
  if userInput.isEmpty || pass.isEmpty then .ok (.MissingCredentials, none)
  else
    match accounts with
    | .null =>
      -- `accounts[userInput]` reads a property of `null`
      .error .typeError
    | .object props =>
      -- `accounts[userInput] || null`, then the search by mobile; `none` on the
      -- right stands for a member inherited from `Object.prototype`
      let found : Except JSError (Option (Option JSValue)) :=
        match props.lookup userInput with
        | some value =>
          if value.truthy then .ok (some (some value))
          else (findMobile userInput (props.map Prod.snd)).map (Option.map some)
        | none =>
          if userInput ∈ objectPrototypeKeys then .ok (some none)
          else (findMobile userInput (props.map Prod.snd)).map (Option.map some)
      match found with
      | .error e => .error e
      | .ok none => .ok (.AccountNotFound, none)
      | .ok (some none) => .ok (.IncorrectPassword, none)
      | .ok (some (some account)) =>
        let hash := sha256hex rt pass
        -- `account` is truthy here, so reading its properties does not throw;
        -- only an object has properties of its own
        match account with
        | .object fields =>
          match fields.lookup "passHash".toList with
          | some (.string stored) =>
            if hash != stored then .ok (.IncorrectPassword, none)
            else
              .ok (.Success, some (.object (definedProps
                [("name", fields.lookup "name".toList),
                 ("email", fields.lookup "email".toList),
                 ("mobile", fields.lookup "mobile".toList),
                 ("city", fields.lookup "city".toList)])))
          | _ => .ok (.IncorrectPassword, none)
        | _ => .ok (.IncorrectPassword, none)

/-- A stand-in for `JSON.parse` that knows three texts, as `JSON.parse` reads
them, and rejects every other. -/
def sampleParse : JSONParse := fun text =>
  if text = "null".toList then some .null
  else if text = "{}".toList then some (.object [])
  else if text = "[]".toList then some (.array [])
  else none

/-- The parsed object that a well-formed account map stands for. -/
def encodeAccounts (m : AccountMap) : List (JSString × JSValue) :=
  m.map fun e => (e.1, e.2.toValue)

/-- The object literal `{ name, email, mobile, city }` as a JSON value. -/
def Session.toValue (current : Session) : JSValue :=
  .object [("name".toList, .string current.name), ("email".toList, .string current.email),
    ("mobile".toList, .string current.mobile), ("city".toList, .string current.city)]

/-! ## Lemmas on the regular expressions and on strings -/

theorem rxTest_one_mem {items : List RxItem} {s : JSString} (h : rxTest items s = true)
    {p : Char → Bool} (hp : RxItem.one p ∈ items) : ∃ c ∈ s, p c = true := by
  induction s generalizing items with
  | nil =>
    cases items with
    | nil => cases hp
    | cons i items => simp [rxTest] at h
  | cons c s ih =>
    cases items with
    | nil => cases hp
    | cons i items =>
      cases i with
      | one q =>
        simp only [rxTest, Bool.and_eq_true] at h
        rcases List.mem_cons.1 hp with hq | hq
        · cases hq
          exact ⟨c, List.mem_cons_self _ _, h.1⟩
        · obtain ⟨d, hd, hpd⟩ := ih h.2 hq
          exact ⟨d, List.mem_cons_of_mem _ hd, hpd⟩
      | plus q =>
        simp only [rxTest, Bool.and_eq_true, Bool.or_eq_true] at h
        rcases List.mem_cons.1 hp with hq | hq
        · cases hq
        · rcases h.2 with h2 | h2
          · obtain ⟨d, hd, hpd⟩ := ih h2 hq
            exact ⟨d, List.mem_cons_of_mem _ hd, hpd⟩
          · obtain ⟨d, hd, hpd⟩ := ih h2 (List.mem_cons_of_mem _ hq)
            exact ⟨d, List.mem_cons_of_mem _ hd, hpd⟩

theorem rxTest_replicate_one {p : Char → Bool} {n : Nat} {s : JSString}
    (h : rxTest (List.replicate n (.one p)) s = true) :
    s.length = n ∧ ∀ c ∈ s, p c = true := by
  induction n generalizing s with
  | zero =>
    cases s with
    | nil => simp
    | cons c s => simp [rxTest] at h
  | succ n ih =>
    cases s with
    | nil => simp [List.replicate, rxTest] at h
    | cons c s =>
      simp only [List.replicate, rxTest, Bool.and_eq_true] at h
      obtain ⟨hl, hall⟩ := ih h.2
      refine ⟨by simp [hl], ?_⟩
      intro d hd
      rcases List.mem_cons.1 hd with rfl | hd
      · exact h.1
      · exact hall d hd

theorem emailRx_mem_at {s : JSString} (h : rxTest emailRx s = true) : '@' ∈ s := by
  obtain ⟨c, hc, hcc⟩ := @rxTest_one_mem emailRx s h (· == '@') (by simp [emailRx])
  have : c = '@' := by simpa using hcc
  exact this ▸ hc

theorem emailRx_ne_nil {s : JSString} (h : rxTest emailRx s = true) : s ≠ [] := by
  intro hs
  have := emailRx_mem_at h
  simp [hs] at this

theorem mobileRx_digits {s : JSString} (h : rxTest mobileRx s = true) :
    s.length = 10 ∧ ∀ c ∈ s, isDigit c = true :=
  rxTest_replicate_one h

theorem trim_of_no_space {s : JSString} (h : ∀ c ∈ s, isWhiteSpace c = false) :
    trim s = s := by
  have hd : ∀ t : JSString, (∀ c ∈ t, isWhiteSpace c = false) →
      t.dropWhile isWhiteSpace = t := by
    intro t ht
    cases t with
    | nil => rfl
    | cons c t => simp [List.dropWhile, ht c (List.mem_cons_self _ _)]
  unfold trim trimEnd trimStart
  rw [hd s h, hd s.reverse (fun c hc => h c (List.mem_reverse.1 hc)), List.reverse_reverse]

theorem isDigit_not_space {c : Char} (h : isDigit c = true) : isWhiteSpace c = false := by
  simp only [isDigit, Bool.and_eq_true, decide_eq_true_eq] at h
  simp only [isWhiteSpace, Bool.or_eq_false_iff, Bool.and_eq_false_iff, beq_eq_false_iff_ne,
    decide_eq_false_iff_not]
  omega

theorem jsLength_ne_nil {s : JSString} (h : 6 ≤ jsLength s) : s ≠ [] := by
  intro hs
  simp [hs, jsLength] at h

/-! ## Lemmas on the account map -/

theorem not_proto_of_mem_at {k : JSString} (h : '@' ∈ k) : k ∉ objectPrototypeKeys := by
  intro hk
  have hall : ∀ x ∈ objectPrototypeKeys, '@' ∉ x := by decide
  exact hall k hk h

theorem not_proto_of_digits {k : JSString} (h : ∀ c ∈ k, isDigit c = true) :
    k ∉ objectPrototypeKeys := by
  intro hk
  have hall : ∀ x ∈ objectPrototypeKeys, ∃ c ∈ x, isDigit c = false := by decide
  obtain ⟨c, hc, hcd⟩ := hall k hk
  rw [h c hc] at hcd
  cases hcd

theorem getProp_truthy_of_at (m : AccountMap) {k : JSString} (h : '@' ∈ k) :
    (getProp m k).truthy = (m.lookup k).isSome := by
  unfold getProp
  cases hl : m.lookup k with
  | some a => rfl
  | none => simp [not_proto_of_mem_at h, PropValue.truthy]

theorem getProp_of_lookup {m : AccountMap} {k : JSString} {a : Account}
    (h : m.lookup k = some a) : getProp m k = .record a := by
  simp [getProp, h]

theorem setProp_of_lookup_none {m : AccountMap} {k : JSString} (h : m.lookup k = none)
    (a : Account) : setProp m k a = m ++ [(k, a)] := by
  unfold setProp
  rw [if_neg]
  simp only [List.any_eq_true, beq_iff_eq, not_exists, not_and]
  intro e he hk
  have := List.lookup_eq_none_iff.1 h e he
  simp [hk] at this

theorem lookup_append_new {m : AccountMap} {k : JSString} (h : m.lookup k = none)
    (a : Account) : (m ++ [(k, a)]).lookup k = some a := by
  simp [List.lookup_append, h]

theorem lookup_of_mem {m : AccountMap} (hk : (m.map Prod.fst).Nodup) {k : JSString}
    {a : Account} (he : (k, a) ∈ m) : m.lookup k = some a := by
  induction m with
  | nil => cases he
  | cons x m ih =>
    obtain ⟨xk, xa⟩ := x
    simp only [List.map_cons, List.nodup_cons] at hk
    rcases List.mem_cons.1 he with heq | hmem
    · cases heq
      simp
    · have hne : k ≠ xk := by
        intro heq
        exact hk.1 (heq ▸ List.mem_map_of_mem Prod.fst hmem)
      rw [List.lookup_cons]
      simp only [beq_eq_false_iff_ne.2 hne]
      exact ih hk.2 hmem

theorem find_mobile_of_mem {m : AccountMap} (hm : MobilesDistinct m) {a : Account}
    (ha : a ∈ values m) :
    (values m).find? (fun b => b.mobile == a.mobile) = some a := by
  unfold MobilesDistinct at hm
  generalize values m = l at hm ha
  induction l with
  | nil => cases ha
  | cons x l ih =>
    simp only [List.map_cons, List.nodup_cons] at hm
    rcases List.mem_cons.1 ha with rfl | ha
    · simp
    · have hne : x.mobile ≠ a.mobile := by
        intro heq
        exact hm.1 (heq ▸ List.mem_map_of_mem Account.mobile ha)
      rw [List.find?_cons_of_neg _ (by simpa using hne)]
      exact ih hm.2 ha

/-! ## Lemmas on the signup handler -/

theorem signup_of_shape (rt : Runtime) (now : Nat) (form : SignupForm) (st : State)
    (h : shapeOK rt form = true) :
    signup rt now form st =
      if (st.accounts.lookup (normalizeEmail rt form.email)).isSome then (.EmailTaken, st)
      else if (values st.accounts).any (fun a => a.mobile == trim form.mobile) then
        (.MobileTaken, st)
      else (.Success, { st with accounts :=
        st.accounts ++ [(normalizeEmail rt form.email, newAccount rt now form)] }) := by
  simp only [shapeOK, Bool.and_eq_true, Bool.not_eq_true', decide_eq_true_eq] at h
  obtain ⟨⟨⟨⟨h1, h2⟩, h3⟩, h4⟩, h5⟩ := h
  have hat := emailRx_mem_at h3
  unfold normalizeEmail at h3 hat
  have h4' : ¬ jsLength form.password < 6 := by omega
  have h5' : (form.password != form.confirm) = false := by simp [h5]
  simp only [signup, h1, h2, h3, if_neg h4', h5', getProp_truthy_of_at _ hat, normalizeEmail,
    Bool.false_eq_true, if_false, Bool.not_true]
  cases hl : st.accounts.lookup (rt.toLowerCase (trim form.email)) with
  | some a => simp
  | none =>
    simp only [Option.isSome_none, Bool.false_eq_true, if_false]
    split
    · rfl
    · rw [setProp_of_lookup_none hl]
      rfl

theorem firstFailing_eq (b1 b2 b3 b4 b5 b6 b7 : Bool) :
    ((([(b1, SignupOutcome.InvalidName), (b2, .InvalidMobile), (b3, .InvalidEmail),
        (b4, .PasswordTooShort), (b5, .PasswordMismatch), (b6, .EmailTaken),
        (b7, .MobileTaken)] : List (Bool × SignupOutcome)).find? fun c => !c.1).map
          Prod.snd).getD .Success =
      if b1 = false then .InvalidName else if b2 = false then .InvalidMobile
      else if b3 = false then .InvalidEmail else if b4 = false then .PasswordTooShort
      else if b5 = false then .PasswordMismatch else if b6 = false then .EmailTaken
      else if b7 = false then .MobileTaken else .Success := by
  cases b1 <;> cases b2 <;> cases b3 <;> cases b4 <;> cases b5 <;> cases b6 <;> cases b7 <;> rfl

theorem mobile_all_eq_not_any (l : List Account) (m : JSString) :
    l.all (fun a => decide (a.mobile ≠ m)) = !(l.any fun a => a.mobile == m) := by
  induction l with
  | nil => rfl
  | cons a l ih =>
    simp only [List.all_cons, List.any_cons, ih, Bool.not_or]
    congr 1
    by_cases h : a.mobile = m <;> simp [h]

theorem signup_outcome_eq (rt : Runtime) (now : Nat) (form : SignupForm) (st : State) :
    (signup rt now form st).1 =
      if (trim form.name).isEmpty then .InvalidName
      else if rxTest mobileRx (trim form.mobile) = false then .InvalidMobile
      else if rxTest emailRx (normalizeEmail rt form.email) = false then .InvalidEmail
      else if jsLength form.password < 6 then .PasswordTooShort
      else if form.password ≠ form.confirm then .PasswordMismatch
      else if (st.accounts.lookup (normalizeEmail rt form.email)).isSome then .EmailTaken
      else if (values st.accounts).any (fun a => a.mobile == trim form.mobile) then .MobileTaken
      else .Success := by
  by_cases h1 : (trim form.name).isEmpty = true
  · simp [signup, h1]
  by_cases h2 : rxTest mobileRx (trim form.mobile) = true
  swap
  · simp [signup, h1, h2]
  by_cases h3 : rxTest emailRx (normalizeEmail rt form.email) = true
  swap
  · have h3' := h3
    unfold normalizeEmail at h3'
    simp [signup, h1, h2, h3, h3']
  by_cases h4 : jsLength form.password < 6
  · have h3' := h3
    unfold normalizeEmail at h3'
    simp [signup, h1, h2, h3, h3', h4]
  by_cases h5 : form.password = form.confirm
  swap
  · have h3' := h3
    unfold normalizeEmail at h3'
    simp [signup, h1, h2, h3, h3', h4, h5]
  have hs : shapeOK rt form = true := by
    simp only [shapeOK, Bool.and_eq_true, Bool.not_eq_true', decide_eq_true_eq]
    exact ⟨⟨⟨⟨by simpa using h1, h2⟩, h3⟩, by omega⟩, h5⟩
  have h1' : (trim form.name).isEmpty = false := by simpa using h1
  have h5' : ¬ form.password ≠ form.confirm := by simp [h5]
  rw [signup_of_shape rt now form st hs]
  simp only [h1', h2, h3, if_neg h4, if_neg h5', Bool.false_eq_true, if_false, Bool.true_eq_false]
  split
  · rfl
  · split <;> rfl

theorem signup_success_iff (rt : Runtime) (now : Nat) (form : SignupForm) (st : State) :
    (signup rt now form st).1 = .Success ↔
      shapeOK rt form = true ∧ st.accounts.lookup (normalizeEmail rt form.email) = none ∧
      (values st.accounts).any (fun a => a.mobile == trim form.mobile) = false := by
  rw [signup_outcome_eq]
  simp only [shapeOK, Bool.and_eq_true, Bool.not_eq_true', decide_eq_true_eq]
  split_ifs with h1 h2 h3 h4 h5 h6 h7
  · simp [h1]
  · simp [h2]
  · simp [h3]
  · simp only [reduceCtorEq, false_iff, not_and]
    intro h
    omega
  · simp [h5]
  · simp only [reduceCtorEq, false_iff, not_and]
    intro _ h
    simp [h] at h6
  · simp [h7]
  · simp only [true_iff]
    refine ⟨⟨⟨⟨⟨by simpa using h1, by simpa using h2⟩, by simpa using h3⟩, by omega⟩,
      by simpa using h5⟩, ?_, by simpa using h7⟩
    cases hl : st.accounts.lookup (normalizeEmail rt form.email) with
    | none => rfl
    | some a => simp [hl] at h6

theorem signup_success_state (rt : Runtime) (now : Nat) (form : SignupForm) (st : State)
    (h : (signup rt now form st).1 = .Success) :
    (signup rt now form st).2 = { st with accounts :=
      st.accounts ++ [(normalizeEmail rt form.email, newAccount rt now form)] } := by
  obtain ⟨hs, hl, hm⟩ := (signup_success_iff rt now form st).1 h
  rw [signup_of_shape rt now form st hs]
  simp [hl, hm]

theorem signup_failure_state (rt : Runtime) (now : Nat) (form : SignupForm) (st : State)
    (h : (signup rt now form st).1 ≠ .Success) : (signup rt now form st).2 = st := by
  revert h
  simp only [signup]
  split_ifs <;> simp

/-! ## Lemmas on the login handler -/

theorem login_accounts (rt : Runtime) (user password : JSString) (st : State) :
    (login rt user password st).2.accounts = st.accounts := by
  unfold login
  simp only
  split_ifs
  · rfl
  · split
    · rfl
    · rfl
    · split_ifs <;> rfl

theorem login_of_record (rt : Runtime) (user password : JSString) (st : State) {a : Account}
    (hu : rt.toLowerCase (trim user) ≠ []) (hp : password ≠ [])
    (hr : resolve st.accounts (rt.toLowerCase (trim user)) = .record a) :
    login rt user password st =
      if sha256hex rt password = a.passHash then
        (.Success, { st with current := some (sessionOf a) })
      else (.IncorrectPassword, st) := by
  have hu' : (rt.toLowerCase (trim user)).isEmpty = false := by
    cases h : rt.toLowerCase (trim user) with
    | nil => exact absurd h hu
    | cons c t => rfl
  have hp' : password.isEmpty = false := by
    cases password with
    | nil => exact absurd rfl hp
    | cons c t => rfl
  simp only [login, hu', hp', hr, Bool.or_self, Bool.false_eq_true, if_false, sessionOf]
  by_cases hh : sha256hex rt password = a.passHash
  · simp [hh]
  · simp [hh]

theorem resolve_of_lookup {m : AccountMap} {k : JSString} {a : Account}
    (h : m.lookup k = some a) : resolve m k = .record a := by
  simp [resolve, getProp_of_lookup h, PropValue.truthy]

theorem resolve_of_mobile {m : AccountMap} {k : JSString} {a : Account}
    (hk : m.lookup k = none) (hp : k ∉ objectPrototypeKeys)
    (hf : (values m).find? (fun b => b.mobile == k) = some a) : resolve m k = .record a := by
  simp [resolve, getProp, hk, hp, PropValue.truthy, hf]

/-! ## Invariants of the account map -/

theorem keyedByEmail_signup (rt : Runtime) (now : Nat) (form : SignupForm) (st : State)
    (hk : KeyedByEmail st.accounts) : KeyedByEmail (signup rt now form st).2.accounts := by
  by_cases h : (signup rt now form st).1 = .Success
  · rw [signup_success_state rt now form st h]
    intro e he
    rcases List.mem_append.1 he with he | he
    · exact hk e he
    · rw [List.mem_singleton.1 he]
      rfl
  · rw [signup_failure_state rt now form st h]
    exact hk

theorem mobilesDistinct_signup (rt : Runtime) (now : Nat) (form : SignupForm) (st : State)
    (hm : MobilesDistinct st.accounts) : MobilesDistinct (signup rt now form st).2.accounts := by
  by_cases h : (signup rt now form st).1 = .Success
  · obtain ⟨_, _, hfree⟩ := (signup_success_iff rt now form st).1 h
    rw [signup_success_state rt now form st h]
    unfold MobilesDistinct values at *
    simp only [List.map_append, List.map_cons, List.map_nil]
    refine List.Nodup.append hm (List.nodup_singleton _) ?_
    intro x hx hx'
    rw [List.mem_singleton.1 hx'] at hx
    simp only [List.any_eq_false, beq_iff_eq] at hfree
    obtain ⟨a, ha, hax⟩ := List.mem_map.1 hx
    exact hfree a ha hax
  · rw [signup_failure_state rt now form st h]
    exact hm

theorem storeInv_signup (rt : Runtime) (now : Nat) (form : SignupForm) (st : State)
    (hi : StoreInv rt st.accounts) : StoreInv rt (signup rt now form st).2.accounts := by
  by_cases h : (signup rt now form st).1 = .Success
  · obtain ⟨hs, hl, _⟩ := (signup_success_iff rt now form st).1 h
    simp only [shapeOK, Bool.and_eq_true, Bool.not_eq_true', decide_eq_true_eq] at hs
    obtain ⟨⟨⟨⟨_, h2⟩, h3⟩, _⟩, _⟩ := hs
    refine ⟨keyedByEmail_signup rt now form st hi.keyed, ?_,
      mobilesDistinct_signup rt now form st hi.mobiles, ?_, ?_, ?_⟩
    · rw [signup_success_state rt now form st h]
      simp only [List.map_append, List.map_cons, List.map_nil]
      refine List.Nodup.append hi.keys_nodup (List.nodup_singleton _) ?_
      intro x hx hx'
      rw [List.mem_singleton.1 hx'] at hx
      obtain ⟨e, he, hex⟩ := List.mem_map.1 hx
      have := List.lookup_eq_none_iff.1 hl e he
      simp [hex] at this
    · rw [signup_success_state rt now form st h]
      intro e he
      rcases List.mem_append.1 he with he | he
      · exact hi.email_shape e he
      · rw [List.mem_singleton.1 he]
        exact h3
    · rw [signup_success_state rt now form st h]
      intro e he
      rcases List.mem_append.1 he with he | he
      · exact hi.mobile_shape e he
      · rw [List.mem_singleton.1 he]
        exact h2
    · rw [signup_success_state rt now form st h]
      intro e he
      rcases List.mem_append.1 he with he | he
      · exact hi.normalized e he
      · rw [List.mem_singleton.1 he]
        exact ⟨form.email, rfl⟩
  · rw [signup_failure_state rt now form st h]
    exact hi

theorem storeInv_later {rt : Runtime} {st₀ st : State} (h : Later rt st₀ st)
    (hi : StoreInv rt st₀.accounts) : StoreInv rt st.accounts := by
  induction h with
  | refl => exact hi
  | signup now form _ ih => exact storeInv_signup rt now form _ ih
  | login user password _ ih => rw [login_accounts]; exact ih
  | logout _ ih => exact ih

theorem storeInv_reachable {rt : Runtime} {st : State} (h : Reachable rt st) :
    StoreInv rt st.accounts := by
  refine storeInv_later h ⟨?_, ?_, ?_, ?_, ?_, ?_⟩
  · intro e he; cases he
  · exact List.nodup_nil
  · exact List.nodup_nil
  · intro e he; cases he
  · intro e he; cases he
  · intro e he; cases he

theorem later_accounts {rt : Runtime} {st₀ st : State} (h : Later rt st₀ st) :
    ∃ t, st.accounts = st₀.accounts ++ t := by
  induction h with
  | refl => exact ⟨[], by simp⟩
  | @signup now form st' _ ih =>
    obtain ⟨t, ht⟩ := ih
    by_cases hs : (signup rt now form st').1 = .Success
    · rw [signup_success_state rt now form st' hs]
      exact ⟨t ++ [(normalizeEmail rt form.email, newAccount rt now form)], by simp [ht]⟩
    · rw [signup_failure_state rt now form st' hs]
      exact ⟨t, ht⟩
  | login user password _ ih => rw [login_accounts]; exact ih
  | logout _ ih => exact ih

/-! ## The sample host satisfies the laws of lower-casing -/

theorem asciiLowerChar_of_upper {c : Char} (h1 : 65 ≤ c.toNat) (h2 : c.toNat ≤ 90) :
    (asciiLowerChar c).toNat = c.toNat + 32 := by
  have hc : c = Char.ofNat c.toNat := (Char.ofNat_toNat c).symm
  generalize c.toNat = n at h1 h2 hc
  subst hc
  interval_cases n <;> rfl

theorem asciiLowerChar_of_not_upper {c : Char} (h : ¬ (65 ≤ c.toNat ∧ c.toNat ≤ 90)) :
    asciiLowerChar c = c := by
  unfold asciiLowerChar
  rw [if_neg]
  simpa using h

theorem asciiLowerChar_idem (c : Char) : asciiLowerChar (asciiLowerChar c) = asciiLowerChar c := by
  by_cases h : 65 ≤ c.toNat ∧ c.toNat ≤ 90
  · apply asciiLowerChar_of_not_upper
    rw [asciiLowerChar_of_upper h.1 h.2]
    omega
  · rw [asciiLowerChar_of_not_upper h]
    exact asciiLowerChar_of_not_upper h

theorem isWhiteSpace_asciiLowerChar (c : Char) :
    isWhiteSpace (asciiLowerChar c) = isWhiteSpace c := by
  by_cases h : 65 ≤ c.toNat ∧ c.toNat ≤ 90
  · have h' := asciiLowerChar_of_upper h.1 h.2
    have e1 : isWhiteSpace (asciiLowerChar c) = false := by
      simp only [isWhiteSpace, Bool.or_eq_false_iff, Bool.and_eq_false_iff, beq_eq_false_iff_ne,
        decide_eq_false_iff_not]
      omega
    have e2 : isWhiteSpace c = false := by
      simp only [isWhiteSpace, Bool.or_eq_false_iff, Bool.and_eq_false_iff, beq_eq_false_iff_ne,
        decide_eq_false_iff_not]
      omega
    rw [e1, e2]
  · rw [asciiLowerChar_of_not_upper h]

theorem trim_map {f : Char → Char}
    (hf : ∀ c, isWhiteSpace (f c) = isWhiteSpace c) (s : JSString) :
    trim (s.map f) = (trim s).map f := by
  have hcomp : isWhiteSpace ∘ f = isWhiteSpace := funext hf
  simp only [trim, trimEnd, trimStart, List.dropWhile_map, hcomp, ← List.map_reverse]

theorem dropWhile_head_not {p : Char → Bool} {s r : JSString} {c : Char}
    (h : s.dropWhile p = c :: r) : p c = false := by
  induction s with
  | nil => cases h
  | cons d s ih =>
    by_cases hd : p d = true
    · rw [List.dropWhile_cons_of_pos hd] at h
      exact ih h
    · rw [List.dropWhile_cons_of_neg hd] at h
      cases h
      simpa using hd

theorem trim_idem (s : JSString) : trim (trim s) = trim s := by
  have hstart : trimStart (trim s) = trim s := by
    unfold trim trimStart
    cases hr : trimEnd (s.dropWhile isWhiteSpace) with
    | nil => rfl
    | cons c r =>
      have hpre : trimEnd (s.dropWhile isWhiteSpace) <+: s.dropWhile isWhiteSpace :=
        List.rdropWhile_prefix isWhiteSpace (s.dropWhile isWhiteSpace)
      rw [hr] at hpre
      obtain ⟨t, ht⟩ := hpre
      have hc : isWhiteSpace c = false := dropWhile_head_not ht.symm
      rw [List.dropWhile_cons_of_neg (by simp [hc])]
  have hend : trimEnd (trim s) = trim s := by
    unfold trim
    exact List.rdropWhile_idempotent isWhiteSpace (trimStart s)
  calc trim (trim s) = trimEnd (trimStart (trim s)) := rfl
    _ = trimEnd (trim s) := by rw [hstart]
    _ = trim s := hend

theorem sampleRuntime_lowerLaws : LowerLaws sampleRuntime.toLowerCase where
  idem := by
    intro s
    simp only [sampleRuntime, List.map_map]
    congr 1
    funext c
    exact asciiLowerChar_idem c
  trimmed := by
    intro s
    simp only [sampleRuntime]
    rw [trim_map isWhiteSpace_asciiLowerChar, trim_idem]
  digits := by
    intro s hs
    simp only [sampleRuntime]
    rw [List.all_eq_true] at hs
    conv_rhs => rw [← List.map_id s]
    apply List.map_congr_left
    intro c hc
    have := hs c hc
    simp only [isDigit, Bool.and_eq_true, decide_eq_true_eq] at this
    simp only [id]
    apply asciiLowerChar_of_not_upper
    omega

/-! ## Further lemmas on the checks of signup -/

theorem emails_eq_keys {m : AccountMap} (h : KeyedByEmail m) :
    (values m).map Account.email = m.map Prod.fst := by
  unfold values
  rw [List.map_map]
  apply List.map_congr_left
  intro e he
  exact (h e he).symm

theorem signup_outcome_checks (rt : Runtime) (now : Nat) (form : SignupForm)
    (st : State) :
    (signup rt now form st).1 =
      (((signupChecks rt form st).find? fun c => !c.1).map Prod.snd).getD .Success := by
  unfold signupChecks
  rw [firstFailing_eq, signup_outcome_eq, mobile_all_eq_not_any]
  by_cases h1 : (trim form.name).isEmpty = true
  · simp [h1]
  · by_cases h6 : (st.accounts.lookup (normalizeEmail rt form.email)).isSome = true
    · have h6' : (st.accounts.lookup (normalizeEmail rt form.email)).isNone = false := by
        cases hl : st.accounts.lookup (normalizeEmail rt form.email) with
        | none => simp [hl] at h6
        | some a => rfl
      simp [h1, h6, h6']
    · have h6' : (st.accounts.lookup (normalizeEmail rt form.email)).isNone = true := by
        cases hl : st.accounts.lookup (normalizeEmail rt form.email) with
        | none => rfl
        | some a => simp [hl] at h6
      simp [h1, h6, h6']

theorem failing_check_not_success (rt : Runtime) (now : Nat) (form : SignupForm)
    (st : State) (h : ∃ c ∈ signupChecks rt form st, c.1 = false) :
    (signup rt now form st).1 ≠ .Success := by
  intro hsucc
  obtain ⟨hs, hl, hm⟩ := (signup_success_iff rt now form st).1 hsucc
  simp only [shapeOK, Bool.and_eq_true, Bool.not_eq_true', decide_eq_true_eq] at hs
  obtain ⟨⟨⟨⟨h1, h2⟩, h3⟩, h4⟩, h5⟩ := hs
  have h7 : (values st.accounts).all (fun a => decide (a.mobile ≠ trim form.mobile)) = true := by
    rw [mobile_all_eq_not_any, hm]
    rfl
  obtain ⟨c, hc, hfalse⟩ := h
  simp only [signupChecks, List.mem_cons, List.mem_singleton, List.not_mem_nil, or_false] at hc
  rcases hc with rfl | rfl | rfl | rfl | rfl | rfl | rfl
  · simp [h1] at hfalse
  · simp [h2] at hfalse
  · simp [h3] at hfalse
  · simp [h4] at hfalse
  · simp [h5] at hfalse
  · simp [hl] at hfalse
  · simp only [h7] at hfalse
    cases hfalse

/-! ## Properties of the handlers -/

/-- C1 — register-then-login round trip: whenever the signup handler succeeds,
a login that follows it with the same email (as typed) and the same password
succeeds, and the session it writes has the trimmed, lower-cased registered
email. -/
theorem signup_then_login_round_trip (rt : Runtime) (now : Nat) (form : SignupForm)
    (st : State) (h : (signup rt now form st).1 = .Success) :
    (login rt form.email form.password (signup rt now form st).2).1 = .Success ∧
    (login rt form.email form.password (signup rt now form st).2).2.current.map Session.email =
      some (rt.toLowerCase (trim form.email)) := by
  obtain ⟨hs, hl, _⟩ := (signup_success_iff rt now form st).1 h
  simp only [shapeOK, Bool.and_eq_true, Bool.not_eq_true', decide_eq_true_eq] at hs
  obtain ⟨⟨⟨⟨_, _⟩, h3⟩, h4⟩, _⟩ := hs
  have hres : resolve (signup rt now form st).2.accounts (rt.toLowerCase (trim form.email)) =
      .record (newAccount rt now form) := by
    rw [signup_success_state rt now form st h]
    exact resolve_of_lookup (lookup_append_new hl _)
  rw [login_of_record rt form.email form.password _ (emailRx_ne_nil h3) (jsLength_ne_nil h4) hres]
  have hh : sha256hex rt form.password = (newAccount rt now form).passHash := rfl
  rw [if_pos hh]
  exact ⟨rfl, rfl⟩

/-- Witness of C1 on the spec's scenario. -/
theorem signup_then_login_round_trip_witness :
    (signup sampleRuntime 0 ashaForm State.empty).1 = .Success ∧
    (login sampleRuntime ashaForm.email ashaForm.password
      (signup sampleRuntime 0 ashaForm State.empty).2).1 = .Success ∧
    (login sampleRuntime ashaForm.email ashaForm.password
      (signup sampleRuntime 0 ashaForm State.empty).2).2.current.map Session.email =
      some (sampleRuntime.toLowerCase (trim ashaForm.email)) :=
  ⟨by decide, signup_then_login_round_trip sampleRuntime 0 ashaForm State.empty (by decide)⟩

/-- C2 — login by mobile equals login by email: in every state reachable from
the empty store, for every stored account and every password, the login handler
run with the account's mobile gives the same outcome and the same state (hence
the same session) as run with the account's email; `toLowerCase` is assumed to
be idempotent, to keep trimmed strings trimmed and to fix digit strings. -/
theorem login_by_mobile_eq_login_by_email (rt : Runtime) (hl : LowerLaws rt.toLowerCase)
    (st : State) (hr : Reachable rt st) (a : Account) (ha : a ∈ values st.accounts)
    (p : JSString) : login rt a.mobile p st = login rt a.email p st := by
  have inv := storeInv_reachable hr
  obtain ⟨e, he, rfl⟩ := List.mem_map.1 ha
  obtain ⟨k, a⟩ := e
  have hka : k = a.email := inv.keyed _ he
  have hshape : rxTest emailRx k = true := inv.email_shape _ he
  obtain ⟨hlen, hdig⟩ : a.mobile.length = 10 ∧ ∀ c ∈ a.mobile, isDigit c = true :=
    mobileRx_digits (inv.mobile_shape _ he)
  obtain ⟨raw, hraw⟩ : ∃ raw, k = normalizeEmail rt raw := inv.normalized _ he
  replace ha : a ∈ values st.accounts := ha
  -- the two normalized identifiers
  have hemail : rt.toLowerCase (trim a.email) = a.email := by
    rw [← hka, hraw]
    unfold normalizeEmail
    rw [hl.trimmed, hl.idem]
  have hmobile : rt.toLowerCase (trim a.mobile) = a.mobile := by
    rw [trim_of_no_space (fun c hc => isDigit_not_space (hdig c hc))]
    exact hl.digits _ (List.all_eq_true.2 hdig)
  by_cases hp : p = []
  · subst hp
    simp [login]
  · have hne_email : rt.toLowerCase (trim a.email) ≠ [] := by
      rw [hemail, ← hka]
      exact emailRx_ne_nil hshape
    have hne_mobile : rt.toLowerCase (trim a.mobile) ≠ [] := by
      rw [hmobile]
      intro h0
      simp [h0] at hlen
    have hres_email : resolve st.accounts (rt.toLowerCase (trim a.email)) = .record a := by
      rw [hemail, ← hka]
      exact resolve_of_lookup (lookup_of_mem inv.keys_nodup he)
    have hres_mobile : resolve st.accounts (rt.toLowerCase (trim a.mobile)) = .record a := by
      rw [hmobile]
      refine resolve_of_mobile ?_ (not_proto_of_digits hdig) (find_mobile_of_mem inv.mobiles ha)
      rw [List.lookup_eq_none_iff]
      intro e2 he2
      have hat : '@' ∈ e2.1 := emailRx_mem_at (inv.email_shape _ he2)
      have hne : a.mobile ≠ e2.1 := by
        intro heq
        rw [← heq] at hat
        have := hdig _ hat
        revert this
        decide
      simpa using hne
    rw [login_of_record rt _ p st hne_mobile hp hres_mobile,
      login_of_record rt _ p st hne_email hp hres_email]

/-- Witness of C2 on the spec's scenario: the mobile and the email of the
registered account log in alike. -/
theorem login_by_mobile_eq_login_by_email_witness :
    Reachable sampleRuntime ashaState ∧
    login sampleRuntime "9876543210".toList "secret1".toList ashaState =
      login sampleRuntime "asha@test.com".toList "secret1".toList ashaState :=
  ⟨Later.signup 0 ashaForm Later.refl,
   login_by_mobile_eq_login_by_email sampleRuntime sampleRuntime_lowerLaws ashaState
    (Later.signup 0 ashaForm Later.refl) (newAccount sampleRuntime 0 ashaForm) (by decide)
    "secret1".toList⟩

/-- C3 — uniqueness invariant: a successful signup on a store in which every
record is keyed by its own email and no two records share a mobile gives a
store with the same two properties; and every store reachable from the empty
one has no two accounts with the same email and no two with the same mobile. -/
theorem signup_keeps_uniqueness (rt : Runtime) :
    (∀ (now : Nat) (form : SignupForm) (st : State),
      KeyedByEmail st.accounts → MobilesDistinct st.accounts →
      (signup rt now form st).1 = .Success →
        KeyedByEmail (signup rt now form st).2.accounts ∧
        MobilesDistinct (signup rt now form st).2.accounts) ∧
    (∀ st : State, Reachable rt st →
      EmailsDistinct st.accounts ∧ MobilesDistinct st.accounts) := by
  refine ⟨fun now form st hk hm _ =>
    ⟨keyedByEmail_signup rt now form st hk, mobilesDistinct_signup rt now form st hm⟩, ?_⟩
  intro st hr
  have inv := storeInv_reachable hr
  refine ⟨?_, inv.mobiles⟩
  unfold EmailsDistinct
  rw [emails_eq_keys inv.keyed]
  exact inv.keys_nodup

/-- Witness of C3: the second registration of the sample keeps the store keyed
by email with distinct mobiles, and the resulting store has distinct emails. -/
theorem signup_keeps_uniqueness_witness :
    (KeyedByEmail annBobState.accounts ∧ MobilesDistinct annBobState.accounts) ∧
    (EmailsDistinct annBobState.accounts ∧ MobilesDistinct annBobState.accounts) :=
  ⟨(signup_keeps_uniqueness sampleRuntime).1 0 (sampleForm "Bob" "2222222222" "b@x.com")
      annState (by decide) (by decide) (by decide),
   (signup_keeps_uniqueness sampleRuntime).2 annBobState
      (Later.signup 0 _ (Later.signup 0 _ Later.refl))⟩

/-- C4 — duplicate email, case-insensitively: once a signup with email `e1` has
succeeded, every later signup that passes the five shape checks and whose email
normalizes to the same string is rejected with `EmailTaken`, whatever its
mobile, and leaves the state unchanged. -/
theorem duplicate_email_is_rejected (rt : Runtime) (now₁ : Nat) (form₁ : SignupForm)
    (st₀ : State) (h₁ : (signup rt now₁ form₁ st₀).1 = .Success)
    (st : State) (hlater : Later rt (signup rt now₁ form₁ st₀).2 st)
    (now₂ : Nat) (form₂ : SignupForm) (hshape : shapeOK rt form₂ = true)
    (hsame : normalizeEmail rt form₂.email = normalizeEmail rt form₁.email) :
    signup rt now₂ form₂ st = (.EmailTaken, st) := by
  obtain ⟨_, hl, _⟩ := (signup_success_iff rt now₁ form₁ st₀).1 h₁
  obtain ⟨t, ht⟩ := later_accounts hlater
  rw [signup_success_state rt now₁ form₁ st₀ h₁] at ht
  have hfound : st.accounts.lookup (normalizeEmail rt form₂.email) =
      some (newAccount rt now₁ form₁) := by
    rw [ht, hsame, List.lookup_append, lookup_append_new hl]
    rfl
  rw [signup_of_shape rt now₂ form₂ st hshape, hfound]
  rfl

/-- Witness of C4: `A@x.com`, then `a@X.com` with another mobile. -/
theorem duplicate_email_is_rejected_witness :
    signup sampleRuntime 1 (sampleForm "Bob" "2222222222" "a@X.com") annState =
      (.EmailTaken, annState) :=
  duplicate_email_is_rejected sampleRuntime 0 (sampleForm "Ann" "1111111111" "A@x.com")
    State.empty (by decide) annState Later.refl 1 (sampleForm "Bob" "2222222222" "a@X.com")
    (by decide) (by decide)

/-- C5, as stated, fails: after `A@x.com` registered with mobile `1111111111`
and `b@x.com` with another mobile, a signup with email `b@x.com` (different
from the first one's) and mobile `1111111111` passes the shape checks and is
rejected with `EmailTaken`, not `MobileTaken`. -/
theorem duplicate_mobile_reports_email_taken :
    (signup sampleRuntime 0 (sampleForm "Ann" "1111111111" "A@x.com") State.empty).1 = .Success ∧
    Later sampleRuntime annState annBobState ∧
    shapeOK sampleRuntime (sampleForm "Cy" "1111111111" "b@x.com") = true ∧
    normalizeEmail sampleRuntime (sampleForm "Cy" "1111111111" "b@x.com").email ≠
      normalizeEmail sampleRuntime (sampleForm "Ann" "1111111111" "A@x.com").email ∧
    trim (sampleForm "Cy" "1111111111" "b@x.com").mobile =
      trim (sampleForm "Ann" "1111111111" "A@x.com").mobile ∧
    (signup sampleRuntime 2 (sampleForm "Cy" "1111111111" "b@x.com") annBobState).1 =
      .EmailTaken ∧
    (signup sampleRuntime 2 (sampleForm "Cy" "1111111111" "b@x.com") annBobState).1 ≠
      .MobileTaken :=
  ⟨by decide, Later.signup 0 _ Later.refl, by decide, by decide, by decide, by decide,
   by decide⟩

/-- C5, amended — duplicate mobile: once a signup with mobile `m` has succeeded,
every later signup that passes the five shape checks and has the same mobile is
rejected and leaves the state unchanged: with `MobileTaken` when its normalized
email is not registered, with `EmailTaken` when it is. -/
theorem duplicate_mobile_is_rejected (rt : Runtime) (now₁ : Nat) (form₁ : SignupForm)
    (st₀ : State) (h₁ : (signup rt now₁ form₁ st₀).1 = .Success)
    (st : State) (hlater : Later rt (signup rt now₁ form₁ st₀).2 st)
    (now₂ : Nat) (form₂ : SignupForm) (hshape : shapeOK rt form₂ = true)
    (hsame : trim form₂.mobile = trim form₁.mobile) :
    signup rt now₂ form₂ st =
      (if st.accounts.lookup (normalizeEmail rt form₂.email) = none then .MobileTaken
       else .EmailTaken, st) := by
  obtain ⟨t, ht⟩ := later_accounts hlater
  rw [signup_success_state rt now₁ form₁ st₀ h₁] at ht
  have htaken : (values st.accounts).any (fun a => a.mobile == trim form₂.mobile) = true := by
    rw [List.any_eq_true]
    refine ⟨newAccount rt now₁ form₁, ?_, by simp [newAccount, hsame]⟩
    unfold values
    rw [ht]
    simp
  rw [signup_of_shape rt now₂ form₂ st hshape, htaken]
  cases hl : st.accounts.lookup (normalizeEmail rt form₂.email) with
  | none => simp
  | some a => simp

/-- Witness of C5 amended: the mobile of `A@x.com` with the fresh email
`c@x.com` is rejected with `MobileTaken`. -/
theorem duplicate_mobile_is_rejected_witness :
    signup sampleRuntime 2 (sampleForm "Cy" "1111111111" "c@x.com") annBobState =
      (.MobileTaken, annBobState) :=
  duplicate_mobile_is_rejected sampleRuntime 0 (sampleForm "Ann" "1111111111" "A@x.com")
    State.empty (by decide) annBobState (Later.signup 0 _ Later.refl) 2
    (sampleForm "Cy" "1111111111" "c@x.com") (by decide) (by decide)

/-- C6, as stated, fails: the empty password is a wrong password for the
account of the spec's scenario (its hash is not the stored one), yet the login
handler answers `MissingCredentials`, not `IncorrectPassword`. -/
theorem empty_password_reports_missing_credentials :
    resolve ashaState.accounts (sampleRuntime.toLowerCase (trim "asha@test.com".toList)) =
      .record (newAccount sampleRuntime 0 ashaForm) ∧
    sha256hex sampleRuntime [] ≠ (newAccount sampleRuntime 0 ashaForm).passHash ∧
    (login sampleRuntime "asha@test.com".toList [] ashaState).1 = .MissingCredentials ∧
    (login sampleRuntime "asha@test.com".toList [] ashaState).1 ≠ .IncorrectPassword :=
  ⟨by decide, by decide, by decide, by decide⟩

/-- C6, amended — wrong password: for every state, every identifier that is
non-empty after normalization and resolves to an account and every non-empty
password whose hash is not the stored one, the login handler yields
`IncorrectPassword` and leaves the whole state (session slot and account map,
stored hash included) as it was. -/
theorem wrong_password_is_rejected (rt : Runtime) (st : State) (user p : JSString)
    (a : Account) (hu : rt.toLowerCase (trim user) ≠ []) (hp : p ≠ [])
    (hr : resolve st.accounts (rt.toLowerCase (trim user)) = .record a)
    (hw : sha256hex rt p ≠ a.passHash) :
    login rt user p st = (.IncorrectPassword, st) := by
  rw [login_of_record rt user p st hu hp hr, if_neg hw]

/-- Witness of C6 amended: a wrong password for the account of the scenario,
with a session already present. -/
theorem wrong_password_is_rejected_witness :
    login sampleRuntime "9876543210".toList "secret2".toList
        { ashaState with current := some (sessionOf (newAccount sampleRuntime 0 ashaForm)) } =
      (.IncorrectPassword,
        { ashaState with current := some (sessionOf (newAccount sampleRuntime 0 ashaForm)) }) :=
  wrong_password_is_rejected sampleRuntime _ "9876543210".toList "secret2".toList
    (newAccount sampleRuntime 0 ashaForm) (by decide) (by decide) (by decide) (by decide)

/-- C7 — validation order: the outcome of the signup handler is the failure of
the first failing check in the order `InvalidName`, `InvalidMobile`,
`InvalidEmail`, `PasswordTooShort`, `PasswordMismatch`, `EmailTaken`,
`MobileTaken`, and success when no check fails. -/
theorem signup_reports_first_failing_check (rt : Runtime) (now : Nat) (form : SignupForm)
    (st : State) :
    (signup rt now form st).1 =
      (((signupChecks rt form st).find? fun c => !c.1).map Prod.snd).getD .Success :=
  signup_outcome_checks rt now form st

/-- C8 — no write on a failed signup: whenever one of the seven checks fails,
the signup handler does not end with success and the state after the call
(account map and session slot) is the state before it. -/
theorem failed_signup_writes_nothing (rt : Runtime) (now : Nat) (form : SignupForm)
    (st : State) (h : ∃ c ∈ signupChecks rt form st, c.1 = false) :
    (signup rt now form st).1 ≠ .Success ∧ (signup rt now form st).2 = st := by
  have hne : (signup rt now form st).1 ≠ .Success := failing_check_not_success rt now form st h
  exact ⟨hne, signup_failure_state rt now form st hne⟩

/-- Witness of C8: the password `abc` is rejected with `PasswordTooShort` and
the store of the scenario stays as it was. -/
theorem failed_signup_writes_nothing_witness :
    (signup sampleRuntime 5 { sampleForm "Bob" "2222222222" "b@x.com" with
        password := "abc".toList, confirm := "abc".toList } ashaState).1 = .PasswordTooShort ∧
    (signup sampleRuntime 5 { sampleForm "Bob" "2222222222" "b@x.com" with
        password := "abc".toList, confirm := "abc".toList } ashaState).2 = ashaState :=
  ⟨by decide, (failed_signup_writes_nothing sampleRuntime 5 _ ashaState (by decide)).2⟩

/-- C9 — effect of a successful signup: the account map afterwards is the map
before followed by exactly one entry; its key is the trimmed, lower-cased email,
which was not a key before; its record holds that email, the trimmed name, the
trimmed mobile (ten decimal digits), the trimmed city, the hash of the password
as typed and the time of the call; lookups of other keys and the session slot
are unchanged. -/
theorem successful_signup_effect (rt : Runtime) (now : Nat) (form : SignupForm) (st : State)
    (h : (signup rt now form st).1 = .Success) :
    st.accounts.lookup (rt.toLowerCase (trim form.email)) = none ∧
    (signup rt now form st).2.accounts =
      st.accounts ++ [(rt.toLowerCase (trim form.email),
        { name := trim form.name, mobile := trim form.mobile,
          email := rt.toLowerCase (trim form.email), city := trim form.city,
          passHash := sha256hex rt form.password, createdAt := now })] ∧
    ((trim form.mobile).length = 10 ∧ ∀ c ∈ trim form.mobile, isDigit c = true) ∧
    (∀ k, k ≠ rt.toLowerCase (trim form.email) →
      (signup rt now form st).2.accounts.lookup k = st.accounts.lookup k) ∧
    (signup rt now form st).2.current = st.current := by
  obtain ⟨hs, hl, _⟩ := (signup_success_iff rt now form st).1 h
  simp only [shapeOK, Bool.and_eq_true, Bool.not_eq_true', decide_eq_true_eq] at hs
  obtain ⟨⟨⟨⟨_, h2⟩, _⟩, _⟩, _⟩ := hs
  rw [signup_success_state rt now form st h]
  refine ⟨hl, rfl, mobileRx_digits h2, ?_, rfl⟩
  intro k hk
  simp only [List.lookup_append, normalizeEmail]
  cases hlk : st.accounts.lookup k with
  | some a => rfl
  | none =>
    simp only [Option.or, List.lookup_cons, List.lookup_nil]
    rw [beq_eq_false_iff_ne.2 hk]

/-- Witness of C9 on the spec's scenario: email `Asha@Test.com` is stored under
the key `asha@test.com`. -/
theorem successful_signup_effect_witness :
    (signup sampleRuntime 0 ashaForm State.empty).1 = .Success ∧
    (signup sampleRuntime 0 ashaForm State.empty).2.accounts =
      [("asha@test.com".toList,
        { name := "Asha Rao".toList, mobile := "9876543210".toList,
          email := "asha@test.com".toList, city := "Pune".toList,
          passHash := sha256hex sampleRuntime "secret1".toList, createdAt := 0 })] :=
  ⟨by decide, (successful_signup_effect sampleRuntime 0 ashaForm State.empty (by decide)).2.1⟩

/-- C10 — session construction: on every successful login the identifier
resolved to an account record, and the state afterwards is the state before
with the session slot overwritten by the record of exactly the four properties
`name`, `email`, `mobile`, `city`, each taken from that account; no property
named `passHash` is written. -/
theorem successful_login_session (rt : Runtime) (user p : JSString) (st : State)
    (h : (login rt user p st).1 = .Success) :
    ∃ a : Account, resolve st.accounts (rt.toLowerCase (trim user)) = .record a ∧
      sha256hex rt p = a.passHash ∧
      (login rt user p st).2 =
        { accounts := st.accounts,
          current := some { name := a.name, email := a.email, mobile := a.mobile,
                            city := a.city } } ∧
      (∀ s ∈ (login rt user p st).2.current,
        s.entries = [("name", a.name), ("email", a.email), ("mobile", a.mobile),
          ("city", a.city)] ∧ "passHash" ∉ s.entries.map Prod.fst) := by
  have hg : ((rt.toLowerCase (trim user)).isEmpty || p.isEmpty) = false := by
    cases hg : ((rt.toLowerCase (trim user)).isEmpty || p.isEmpty) with
    | false => rfl
    | true =>
      simp only [login, hg, if_true] at h
      cases h
  cases hres : resolve st.accounts (rt.toLowerCase (trim user)) with
  | undefined =>
    simp only [login, hg, hres, Bool.false_eq_true, if_false] at h
    cases h
  | inherited =>
    simp only [login, hg, hres, Bool.false_eq_true, if_false] at h
    cases h
  | record a =>
    by_cases hh : sha256hex rt p = a.passHash
    · refine ⟨a, rfl, hh, ?_⟩
      simp only [login, hg, hres, hh, bne_self_eq_false, Bool.false_eq_true, if_false, true_and]
      intro s hs
      rw [Option.mem_def] at hs
      cases hs
      exact ⟨rfl, by simp [Session.entries]⟩
    · have hne : (sha256hex rt p != a.passHash) = true := by simpa using hh
      simp only [login, hg, hres, hne, Bool.false_eq_true, if_false, if_true] at h
      cases h

/-- Witness of C10 on the spec's scenario: login with mobile `9876543210` and
password `secret1` writes the session of Asha Rao, replacing the one present. -/
theorem successful_login_session_witness :
    (login sampleRuntime "9876543210".toList "secret1".toList
        { ashaState with current := some ⟨[], [], [], []⟩ }).2.current =
      some { name := "Asha Rao".toList, email := "asha@test.com".toList,
             mobile := "9876543210".toList, city := "Pune".toList } ∧
    ∃ a : Account,
      resolve ashaState.accounts (sampleRuntime.toLowerCase (trim "9876543210".toList)) =
        .record a ∧
      sha256hex sampleRuntime "secret1".toList = a.passHash ∧
      (login sampleRuntime "9876543210".toList "secret1".toList
          { ashaState with current := some ⟨[], [], [], []⟩ }).2 =
        { accounts := ashaState.accounts,
          current := some { name := a.name, email := a.email, mobile := a.mobile,
                            city := a.city } } ∧
      (∀ s ∈ (login sampleRuntime "9876543210".toList "secret1".toList
          { ashaState with current := some ⟨[], [], [], []⟩ }).2.current,
        s.entries = [("name", a.name), ("email", a.email), ("mobile", a.mobile),
          ("city", a.city)] ∧ "passHash" ∉ s.entries.map Prod.fst) :=
  ⟨by decide, successful_login_session sampleRuntime "9876543210".toList "secret1".toList
    { ashaState with current := some ⟨[], [], [], []⟩ } (by decide)⟩

/-! ## Further lemmas on login and on the mobile check -/

theorem login_of_undefined (rt : Runtime) (user password : JSString) (st : State)
    (hu : rt.toLowerCase (trim user) ≠ []) (hp : password ≠ [])
    (hr : resolve st.accounts (rt.toLowerCase (trim user)) = .undefined) :
    login rt user password st = (.AccountNotFound, st) := by
  have hu2 : (rt.toLowerCase (trim user)).isEmpty = false := by
    cases h : rt.toLowerCase (trim user) with
    | nil => exact absurd h hu
    | cons c t => rfl
  have hp2 : password.isEmpty = false := by
    cases password with
    | nil => exact absurd rfl hp
    | cons c t => rfl
  simp only [login, hu2, hp2, hr, Bool.or_self, Bool.false_eq_true, if_false]

theorem login_of_inherited (rt : Runtime) (user password : JSString) (st : State)
    (hu : rt.toLowerCase (trim user) ≠ []) (hp : password ≠ [])
    (hr : resolve st.accounts (rt.toLowerCase (trim user)) = .inherited) :
    login rt user password st = (.IncorrectPassword, st) := by
  have hu2 : (rt.toLowerCase (trim user)).isEmpty = false := by
    cases h : rt.toLowerCase (trim user) with
    | nil => exact absurd h hu
    | cons c t => rfl
  have hp2 : password.isEmpty = false := by
    cases password with
    | nil => exact absurd rfl hp
    | cons c t => rfl
  simp only [login, hu2, hp2, hr, Bool.or_self, Bool.false_eq_true, if_false]

theorem resolve_inherited {m : AccountMap} {k : JSString} (hk : m.lookup k = none)
    (hp : k ∈ objectPrototypeKeys) : resolve m k = .inherited := by
  simp [resolve, getProp, hk, hp, PropValue.truthy]

theorem resolve_undefined {m : AccountMap} {k : JSString} (hk : m.lookup k = none)
    (hp : k ∉ objectPrototypeKeys)
    (hf : (values m).find? (fun b => b.mobile == k) = none) : resolve m k = .undefined := by
  simp [resolve, getProp, hk, hp, PropValue.truthy, hf]

theorem rxTest_replicate_one_of {p : Char → Bool} {s : JSString}
    (hall : ∀ c ∈ s, p c = true) : rxTest (List.replicate s.length (.one p)) s = true := by
  induction s with
  | nil => rfl
  | cons c s ih =>
    simp only [List.length_cons, List.replicate, rxTest, Bool.and_eq_true]
    exact ⟨hall c (List.mem_cons_self _ _), ih (fun d hd => hall d (List.mem_cons_of_mem _ hd))⟩

theorem mobileRx_eq_isTenDigits (s : JSString) : rxTest mobileRx s = isTenDigits s := by
  cases h : isTenDigits s with
  | true =>
    simp only [isTenDigits, Bool.and_eq_true, beq_iff_eq, List.all_eq_true] at h
    have := rxTest_replicate_one_of h.2
    rw [h.1] at this
    exact this
  | false =>
    cases h2 : rxTest mobileRx s with
    | false => rfl
    | true =>
      obtain ⟨hl, hd⟩ := mobileRx_digits h2
      have : isTenDigits s = true := by
        simp only [isTenDigits, Bool.and_eq_true, beq_iff_eq, List.all_eq_true]
        exact ⟨hl, hd⟩
      rw [h] at this
      cases this

/-- C11 — login never writes the account store: whatever the identifier, the
password and the outcome, the account map after the login handler is the one
before it. -/
theorem login_never_writes_accounts (rt : Runtime) (user password : JSString) (st : State) :
    (login rt user password st).2.accounts = st.accounts :=
  login_accounts rt user password st

/-- C12, evaluated where the code departs from it: on the empty store, where no
account has `constructor` as key or as mobile, the login handler answers
`IncorrectPassword` for that identifier instead of `AccountNotFound`; so it
does for `__proto__` on the store of the scenario. -/
theorem login_constructor_incorrect_password :
    State.empty.accounts.lookup "constructor".toList = none ∧
    (values State.empty.accounts).find? (fun a => a.mobile == "constructor".toList) = none ∧
    (login sampleRuntime "constructor".toList "secret1".toList State.empty).1 =
      .IncorrectPassword ∧
    ashaState.accounts.lookup "__proto__".toList = none ∧
    (values ashaState.accounts).find? (fun a => a.mobile == "__proto__".toList) = none ∧
    (login sampleRuntime "__proto__".toList "secret1".toList ashaState).1 =
      .IncorrectPassword :=
  ⟨by decide, by decide, by decide, by decide, by decide, by decide⟩

/-- C13, as stated, fails: on the store of the scenario and with the same wrong
password, the login handler shows one message for an identifier that resolves
to no account and another for one that resolves to an account. -/
theorem login_messages_differ :
    resolve ashaState.accounts (sampleRuntime.toLowerCase (trim "nobody@x.com".toList)) =
      .undefined ∧
    resolve ashaState.accounts (sampleRuntime.toLowerCase (trim "asha@test.com".toList)) =
      .record (newAccount sampleRuntime 0 ashaForm) ∧
    sha256hex sampleRuntime "secret2".toList ≠ (newAccount sampleRuntime 0 ashaForm).passHash ∧
    (login sampleRuntime "nobody@x.com".toList "secret2".toList ashaState).1.message ≠
      (login sampleRuntime "asha@test.com".toList "secret2".toList ashaState).1.message :=
  ⟨by decide, by decide, by decide, by decide⟩

/-- C13, amended — the messages of login tell the two failures apart: for an
identifier that, trimmed and lower-cased, is non-empty, is neither the key nor
the mobile of a stored account and is not the name of a member of
`Object.prototype`, the handler shows `No account found.` with a link to
signup; for one that resolves to an account whose stored hash does not match
the password it shows `Incorrect password.`; the two texts are different. -/
theorem login_messages_distinguish (rt : Runtime) (st : State) (user₁ user₂ p : JSString)
    (a : Account) (hp : p ≠ []) (h₁ : rt.toLowerCase (trim user₁) ≠ [])
    (h₂ : rt.toLowerCase (trim user₂) ≠ [])
    (hkey : st.accounts.lookup (rt.toLowerCase (trim user₁)) = none)
    (hmobile : ∀ b ∈ values st.accounts, b.mobile ≠ rt.toLowerCase (trim user₁))
    (hproto : rt.toLowerCase (trim user₁) ∉ objectPrototypeKeys)
    (hr₂ : resolve st.accounts (rt.toLowerCase (trim user₂)) = .record a)
    (hw : sha256hex rt p ≠ a.passHash) :
    (login rt user₁ p st).1.message =
      some "No account found. <a href=\"signup.html\">Create one</a>" ∧
    (login rt user₂ p st).1.message = some "Incorrect password." ∧
    (login rt user₁ p st).1.message ≠ (login rt user₂ p st).1.message := by
  have hfind : (values st.accounts).find? (fun b => b.mobile == rt.toLowerCase (trim user₁)) =
      none := by
    rw [List.find?_eq_none]
    intro b hb
    simpa using hmobile b hb
  rw [login_of_undefined rt user₁ p st h₁ hp (resolve_undefined hkey hproto hfind),
    login_of_record rt user₂ p st h₂ hp hr₂, if_neg hw]
  refine ⟨rfl, rfl, ?_⟩
  show LoginOutcome.AccountNotFound.message ≠ LoginOutcome.IncorrectPassword.message
  decide

/-- Witness of C13 amended on the store of the scenario. -/
theorem login_messages_distinguish_witness :
    (login sampleRuntime "nobody@x.com".toList "secret2".toList ashaState).1.message =
      some "No account found. <a href=\"signup.html\">Create one</a>" ∧
    (login sampleRuntime "asha@test.com".toList "secret2".toList ashaState).1.message =
      some "Incorrect password." ∧
    (login sampleRuntime "nobody@x.com".toList "secret2".toList ashaState).1.message ≠
      (login sampleRuntime "asha@test.com".toList "secret2".toList ashaState).1.message :=
  login_messages_distinguish sampleRuntime ashaState "nobody@x.com".toList
    "asha@test.com".toList "secret2".toList (newAccount sampleRuntime 0 ashaForm)
    (by decide) (by decide) (by decide) (by decide) (by decide) (by decide) (by decide)
    (by decide)

/-- C17, as stated, fails: a mobile supplied with a space before and after its
ten digits is not a string of exactly ten decimal digits, yet the signup is
accepted, because the handler trims the mobile before testing it. -/
theorem padded_mobile_is_accepted :
    trim (sampleForm "Ann" " 1111111111 " "A@x.com").name ≠ [] ∧
    isTenDigits (sampleForm "Ann" " 1111111111 " "A@x.com").mobile = false ∧
    (signup sampleRuntime 0 (sampleForm "Ann" " 1111111111 " "A@x.com") State.empty).1 =
      .Success ∧
    (signup sampleRuntime 0 (sampleForm "Ann" " 1111111111 " "A@x.com") State.empty).1 ≠
      .InvalidMobile :=
  ⟨by decide, by decide, by decide, by decide⟩

/-- C17, amended — mobile check: for every signup input whose name is non-empty
after trimming, if the supplied mobile, once trimmed, is not a string of exactly
ten decimal digits then the signup is rejected with `InvalidMobile` and the
state is left as it was. -/
theorem invalid_mobile_is_rejected (rt : Runtime) (now : Nat) (form : SignupForm) (st : State)
    (hname : trim form.name ≠ []) (hmobile : isTenDigits (trim form.mobile) = false) :
    signup rt now form st = (.InvalidMobile, st) := by
  have h1 : (trim form.name).isEmpty = false := by
    cases h : trim form.name with
    | nil => exact absurd h hname
    | cons c t => rfl
  have h2 : rxTest mobileRx (trim form.mobile) = false := by
    rw [mobileRx_eq_isTenDigits, hmobile]
  simp only [signup, h1, h2, Bool.false_eq_true, if_false, Bool.not_false, if_true]

/-- Witness of C17 amended: a mobile of nine digits. -/
theorem invalid_mobile_is_rejected_witness :
    signup sampleRuntime 0 (sampleForm "Ann" "111111111" "A@x.com") ashaState =
      (.InvalidMobile, ashaState) :=
  invalid_mobile_is_rejected sampleRuntime 0 (sampleForm "Ann" "111111111" "A@x.com") ashaState
    (by decide) (by decide)

/-- C18 — logout clears and is idempotent: after logout the session slot is
absent; on a state with no session logout changes nothing; logout after logout
equals logout; logout never changes the account map. -/
theorem logout_clears_and_is_idempotent (st : State) :
    (logout st).current = none ∧ (st.current = none → logout st = st) ∧
    logout (logout st) = logout st ∧ (logout st).accounts = st.accounts := by
  refine ⟨rfl, ?_, rfl, rfl⟩
  intro h
  cases st with
  | mk accounts current =>
    simp only at h
    subst h
    rfl

/-- Witness of C18: logout after the login of the scenario, and logout with no
session. -/
theorem logout_clears_and_is_idempotent_witness :
    (logout (login sampleRuntime "9876543210".toList "secret1".toList ashaState).2).current =
      none ∧
    logout ashaState = ashaState :=
  ⟨(logout_clears_and_is_idempotent _).1,
   (logout_clears_and_is_idempotent ashaState).2.1 (by decide)⟩

/-! ## Lemmas on the hexadecimal encoding -/

set_option maxRecDepth 100000 in
theorem hexDigits_spec : ∀ n < 256,
    (List.replicate (2 - (Nat.toDigits 16 n).length) '0' ++ Nat.toDigits 16 n).length = 2 ∧
    (List.replicate (2 - (Nat.toDigits 16 n).length) '0' ++ Nat.toDigits 16 n).all isLowerHex
      = true ∧
    hexByteValue (List.replicate (2 - (Nat.toDigits 16 n).length) '0' ++ Nat.toDigits 16 n)
      = n ∧
    (n < 16 → (List.replicate (2 - (Nat.toDigits 16 n).length) '0' ++ Nat.toDigits 16 n).head?
      = some '0') := by
  decide

theorem hexByte_spec (b : UInt8) :
    (hexByte b).length = 2 ∧ (hexByte b).all isLowerHex = true ∧
    hexByteValue (hexByte b) = b.toNat ∧ (b.toNat < 16 → (hexByte b).head? = some '0') :=
  hexDigits_spec b.toNat b.toNat_lt

theorem hexEncode_cons (b : UInt8) (bytes : List UInt8) :
    hexEncode (b :: bytes) = hexByte b ++ hexEncode bytes := by
  simp [hexEncode]

theorem hexEncode_length (bytes : List UInt8) : (hexEncode bytes).length = 2 * bytes.length := by
  induction bytes with
  | nil => rfl
  | cons b bytes ih =>
    rw [hexEncode_cons, List.length_append, ih, (hexByte_spec b).1, List.length_cons]
    omega

theorem hexEncode_all_hex (bytes : List UInt8) : ∀ c ∈ hexEncode bytes, isLowerHex c = true := by
  induction bytes with
  | nil => intro c hc; cases hc
  | cons b bytes ih =>
    intro c hc
    rw [hexEncode_cons] at hc
    rcases List.mem_append.1 hc with h | h
    · exact List.all_eq_true.1 (hexByte_spec b).2.1 c h
    · exact ih c h

theorem hexByte_injective {a b : UInt8} (h : hexByte a = hexByte b) : a = b := by
  have ha := (hexByte_spec a).2.2.1
  have hb := (hexByte_spec b).2.2.1
  rw [h] at ha
  have : a.toNat = b.toNat := ha.symm.trans hb
  exact UInt8.eq_of_val_eq (Fin.ext this)

theorem hexEncode_injective {xs ys : List UInt8} (h : hexEncode xs = hexEncode ys) : xs = ys := by
  induction xs generalizing ys with
  | nil =>
    cases ys with
    | nil => rfl
    | cons y ys =>
      have := congrArg List.length h
      rw [hexEncode_length, hexEncode_length] at this
      simp at this
  | cons x xs ih =>
    cases ys with
    | nil =>
      have := congrArg List.length h
      rw [hexEncode_length, hexEncode_length] at this
      simp at this
    | cons y ys =>
      rw [hexEncode_cons, hexEncode_cons] at h
      have hlen : (hexByte x).length = (hexByte y).length := by
        rw [(hexByte_spec x).1, (hexByte_spec y).1]
      obtain ⟨h1, h2⟩ := List.append_inj h hlen
      rw [hexByte_injective h1, ih h2]

/-- C16 — hash output format: the encoding step maps `n` bytes to a string of
exactly `2n` characters, each one of `0`–`9` or `a`–`f`, two per byte with a
leading zero for bytes below 16; hence `sha256hex` returns 64 such characters
whenever the digest has 32 bytes. -/
theorem sha256hex_format :
    (∀ bytes : List UInt8, (hexEncode bytes).length = 2 * bytes.length ∧
      (∀ c ∈ hexEncode bytes, isLowerHex c = true) ∧
      hexEncode bytes = (bytes.map hexByte).flatten) ∧
    (∀ b : UInt8, (hexByte b).length = 2 ∧ (b.toNat < 16 → (hexByte b).head? = some '0')) ∧
    (∀ (rt : Runtime) (text : JSString), (rt.digest (textEncode text)).length = 32 →
      (sha256hex rt text).length = 64 ∧ ∀ c ∈ sha256hex rt text, isLowerHex c = true) := by
  refine ⟨fun bytes => ⟨hexEncode_length bytes, hexEncode_all_hex bytes, rfl⟩,
    fun b => ⟨(hexByte_spec b).1, (hexByte_spec b).2.2.2⟩, ?_⟩
  intro rt text h
  unfold sha256hex
  simp only
  refine ⟨?_, hexEncode_all_hex _⟩
  rw [hexEncode_length, h]

/-- Witness of C16: the hash of the password of the scenario under the sample
host, and the byte 10 written `0a`. -/
theorem sha256hex_format_witness :
    ((sha256hex sampleRuntime "secret1".toList).length = 64 ∧
      ∀ c ∈ sha256hex sampleRuntime "secret1".toList, isLowerHex c = true) ∧
    (hexByte 10).head? = some '0' :=
  ⟨sha256hex_format.2.2 sampleRuntime "secret1".toList (by decide),
   (sha256hex_format.2.1 10).2 (by decide)⟩

/-- C20 — hex encoding is injective: two byte sequences of equal length with
the same hex string are equal; so, against a stored hash that is the encoding
of a digest, the comparison of the login handler succeeds exactly when the
digest of the password is that digest, byte for byte. -/
theorem hex_comparison_is_digest_comparison :
    (∀ xs ys : List UInt8, xs.length = ys.length → hexEncode xs = hexEncode ys → xs = ys) ∧
    (∀ (rt : Runtime) (st : State) (user p : JSString) (a : Account) (stored : List UInt8),
      rt.toLowerCase (trim user) ≠ [] → p ≠ [] →
      resolve st.accounts (rt.toLowerCase (trim user)) = .record a →
      a.passHash = hexEncode stored →
      ((login rt user p st).1 = .Success ↔ rt.digest (textEncode p) = stored)) := by
  refine ⟨fun xs ys _ h => hexEncode_injective h, ?_⟩
  intro rt st user p a stored hu hp hr hs
  rw [login_of_record rt user p st hu hp hr, hs]
  constructor
  · intro h
    by_cases heq : sha256hex rt p = hexEncode stored
    · exact hexEncode_injective heq
    · rw [if_neg heq] at h
      cases h
  · intro h
    have heq : sha256hex rt p = hexEncode stored := by
      unfold sha256hex
      simp only [h]
    rw [if_pos heq]

/-- Witness of C20: two single bytes, and the login of the scenario. -/
theorem hex_comparison_is_digest_comparison_witness :
    ([171] : List UInt8) = [171] ∧
    ((login sampleRuntime "9876543210".toList "secret1".toList ashaState).1 = .Success ↔
      sampleRuntime.digest (textEncode "secret1".toList) =
        sampleRuntime.digest (textEncode "secret1".toList)) :=
  ⟨hex_comparison_is_digest_comparison.1 [171] [171] rfl rfl,
   hex_comparison_is_digest_comparison.2 sampleRuntime ashaState "9876543210".toList
    "secret1".toList (newAccount sampleRuntime 0 ashaForm)
    (sampleRuntime.digest (textEncode "secret1".toList)) (by decide) (by decide) (by decide)
    rfl⟩

/-! ## Lemmas on the shape of emails -/

theorem rxTest_nil_iff (s : JSString) : rxTest [] s = true ↔ s = [] := by
  cases s with
  | nil => simp [rxTest]
  | cons c s => simp [rxTest]

theorem rxTest_one_iff (p : Char → Bool) (items : List RxItem) (s : JSString) :
    rxTest (.one p :: items) s = true ↔
      ∃ c b, s = c :: b ∧ p c = true ∧ rxTest items b = true := by
  cases s with
  | nil => simp [rxTest]
  | cons c s =>
    simp only [rxTest, Bool.and_eq_true]
    constructor
    · rintro ⟨h1, h2⟩
      exact ⟨c, s, rfl, h1, h2⟩
    · rintro ⟨d, b, hs, h1, h2⟩
      cases hs
      exact ⟨h1, h2⟩

theorem rxTest_plus_iff (p : Char → Bool) (items : List RxItem) (s : JSString) :
    rxTest (.plus p :: items) s = true ↔
      ∃ a b, s = a ++ b ∧ a ≠ [] ∧ (∀ c ∈ a, p c = true) ∧ rxTest items b = true := by
  induction s with
  | nil =>
    simp only [rxTest, Bool.false_eq_true, false_iff]
    rintro ⟨a, b, hs, ha, _⟩
    cases a with
    | nil => exact ha rfl
    | cons x a => cases hs
  | cons c s ih =>
    simp only [rxTest, Bool.and_eq_true, Bool.or_eq_true]
    constructor
    · rintro ⟨hc, h | h⟩
      · refine ⟨[c], s, rfl, by simp, ?_, h⟩
        intro d hd
        rw [List.mem_singleton.1 hd]
        exact hc
      · obtain ⟨a, b, hs, _, hall, hb⟩ := ih.1 h
        refine ⟨c :: a, b, by rw [hs]; rfl, by simp, ?_, hb⟩
        intro d hd
        rcases List.mem_cons.1 hd with rfl | hd
        · exact hc
        · exact hall d hd
    · rintro ⟨a, b, hs, ha, hall, hb⟩
      cases a with
      | nil => exact absurd rfl ha
      | cons x a =>
        simp only [List.cons_append, List.cons.injEq] at hs
        obtain ⟨rfl, rfl⟩ := hs
        refine ⟨hall c (List.mem_cons_self _ _), ?_⟩
        cases a with
        | nil => exact Or.inl hb
        | cons y a =>
          refine Or.inr (ih.2 ⟨y :: a, b, rfl, by simp, ?_, hb⟩)
          intro d hd
          exact hall d (List.mem_cons_of_mem _ hd)

theorem emailRx_iff_split (s : JSString) :
    rxTest emailRx s = true ↔
      ∃ a b c, s = a ++ '@' :: (b ++ '.' :: c) ∧ a ≠ [] ∧ b ≠ [] ∧ c ≠ [] ∧
        (∀ x ∈ a, notSpaceAt x = true) ∧ (∀ x ∈ b, notSpaceAt x = true) ∧
        (∀ x ∈ c, notSpaceAt x = true) := by
  unfold emailRx
  constructor
  · intro h
    obtain ⟨a, r1, hs, ha, halla, h⟩ := (rxTest_plus_iff _ _ _).1 h
    obtain ⟨x, r2, hr1, hx, h⟩ := (rxTest_one_iff _ _ _).1 h
    obtain ⟨b, r3, hr2, hb, hallb, h⟩ := (rxTest_plus_iff _ _ _).1 h
    obtain ⟨y, r4, hr3, hy, h⟩ := (rxTest_one_iff _ _ _).1 h
    obtain ⟨c, r5, hr4, hc, hallc, h⟩ := (rxTest_plus_iff _ _ _).1 h
    have hr5 : r5 = [] := (rxTest_nil_iff _).1 h
    have hx2 : x = '@' := by simpa using hx
    have hy2 : y = '.' := by simpa using hy
    refine ⟨a, b, c, ?_, ha, hb, hc, halla, hallb, hallc⟩
    rw [hs, hr1, hr2, hr3, hr4, hr5, hx2, hy2, List.append_nil]
  · rintro ⟨a, b, c, hs, ha, hb, hc, halla, hallb, hallc⟩
    refine (rxTest_plus_iff _ _ _).2 ⟨a, _, hs, ha, halla, ?_⟩
    refine (rxTest_one_iff _ _ _).2 ⟨'@', _, rfl, by simp, ?_⟩
    refine (rxTest_plus_iff _ _ _).2 ⟨b, _, rfl, hb, hallb, ?_⟩
    refine (rxTest_one_iff _ _ _).2 ⟨'.', _, rfl, by simp, ?_⟩
    refine (rxTest_plus_iff _ _ _).2 ⟨c, [], by simp, hc, hallc, ?_⟩
    rfl

theorem notSpaceAt_iff (x : Char) : notSpaceAt x = true ↔ isWhiteSpace x = false ∧ x ≠ '@' := by
  simp [notSpaceAt]

theorem emailShape_of_split {s a b c : JSString} (hs : s = a ++ '@' :: (b ++ '.' :: c))
    (ha : a ≠ []) (hb : b ≠ []) (hc : c ≠ [])
    (halla : ∀ x ∈ a, notSpaceAt x = true) (hallb : ∀ x ∈ b, notSpaceAt x = true)
    (hallc : ∀ x ∈ c, notSpaceAt x = true) : emailShape s = true := by
  have hna : ∀ x ∈ a, (x != '@') = true := fun x hx => by
    simpa using ((notSpaceAt_iff x).1 (halla x hx)).2
  have hbefore : beforeAt s = a := by
    unfold beforeAt
    rw [hs, List.takeWhile_append_of_pos hna]
    simp
  have hafter : afterAt s = b ++ '.' :: c := by
    unfold afterAt
    rw [hs, List.dropWhile_append_of_pos hna]
    simp
  have hcount : ∀ l : JSString, (∀ x ∈ l, notSpaceAt x = true) → l.count '@' = 0 := by
    intro l hl
    apply List.count_eq_zero_of_not_mem
    intro hmem
    exact ((notSpaceAt_iff _).1 (hl _ hmem)).2 rfl
  simp only [emailShape, Bool.and_eq_true, List.all_eq_true, Bool.not_eq_true', beq_iff_eq,
    hbefore, hafter]
  refine ⟨⟨⟨?_, ?_⟩, ?_⟩, ?_⟩
  · intro x hx
    rw [hs] at hx
    simp only [List.mem_append, List.mem_cons] at hx
    rcases hx with hx | rfl | hx | rfl | hx
    · exact ((notSpaceAt_iff x).1 (halla x hx)).1
    · decide
    · exact ((notSpaceAt_iff x).1 (hallb x hx)).1
    · decide
    · exact ((notSpaceAt_iff x).1 (hallc x hx)).1
  · rw [hs]
    simp only [List.count_append, List.count_cons, hcount a halla, hcount b hallb,
      hcount c hallc]
    decide
  · cases a with
    | nil => exact absurd rfl ha
    | cons x a => rfl
  · cases b with
    | nil => exact absurd rfl hb
    | cons x b =>
      unfold hasInnerDot
      simp only [List.cons_append, List.drop_succ_cons, List.drop_zero]
      rw [List.dropLast_append_of_ne_nil _ (by simp), List.dropLast_cons_of_ne_nil hc]
      simp

theorem split_of_emailShape {s : JSString} (h : emailShape s = true) :
    ∃ a b c, s = a ++ '@' :: (b ++ '.' :: c) ∧ a ≠ [] ∧ b ≠ [] ∧ c ≠ [] ∧
      (∀ x ∈ a, notSpaceAt x = true) ∧ (∀ x ∈ b, notSpaceAt x = true) ∧
      (∀ x ∈ c, notSpaceAt x = true) := by
  simp only [emailShape, Bool.and_eq_true, List.all_eq_true, Bool.not_eq_true', beq_iff_eq]
    at h
  obtain ⟨⟨⟨hws, hcount⟩, hbefore⟩, hdot⟩ := h
  -- the string splits at its first `@`
  have hsplit : s = s.takeWhile (· != '@') ++ s.dropWhile (· != '@') :=
    (List.takeWhile_append_dropWhile _ s).symm
  have hna : ∀ x ∈ s.takeWhile (· != '@'), x ≠ '@' := by
    intro x hx
    simpa using List.mem_takeWhile_imp hx
  have hmem : '@' ∈ s := by
    apply List.count_pos_iff.1
    omega
  cases hr : s.dropWhile (· != '@') with
  | nil =>
    rw [hr, List.append_nil] at hsplit
    rw [hsplit] at hmem
    exact absurd rfl (hna _ hmem)
  | cons x after =>
    have hx : x = '@' := by simpa using dropWhile_head_not hr
    subst hx
    rw [hr] at hsplit
    have hafter : afterAt s = after := by
      unfold afterAt
      rw [hr]
      rfl
    rw [hafter] at hdot
    have hnafter : '@' ∉ after := by
      intro hm
      have h0 : (s.takeWhile (· != '@')).count '@' = 0 :=
        List.count_eq_zero_of_not_mem (fun hm2 => hna _ hm2 rfl)
      have h1 : 0 < after.count '@' := List.count_pos_iff.2 hm
      rw [hsplit, List.count_append, List.count_cons, h0] at hcount
      simp only [beq_self_eq_true, if_true] at hcount
      omega
    -- the part after the `@` splits at an inner dot
    unfold hasInnerDot at hdot
    have hdot2 : '.' ∈ (after.drop 1).dropLast := by simpa using hdot
    cases after with
    | nil => simp at hdot2
    | cons y t =>
      simp only [List.drop_succ_cons, List.drop_zero] at hdot2
      have ht : t ≠ [] := by
        intro h0
        rw [h0] at hdot2
        simp at hdot2
      obtain ⟨l1, l2, hl⟩ := List.append_of_mem hdot2
      have ht2 : t = l1 ++ '.' :: (l2 ++ [t.getLast ht]) := by
        conv_lhs => rw [← List.dropLast_append_getLast ht, hl]
        simp
      refine ⟨s.takeWhile (· != '@'), y :: l1, l2 ++ [t.getLast ht], ?_, ?_, by simp, by simp,
        ?_, ?_, ?_⟩
      · conv_lhs => rw [hsplit, ht2]
        simp
      · intro h0
        unfold beforeAt at hbefore
        rw [h0] at hbefore
        simp at hbefore
      · intro z hz
        refine (notSpaceAt_iff z).2 ⟨?_, hna z hz⟩
        exact by simpa using hws z ((List.takeWhile_sublist _).subset hz)
      · intro z hz
        have hz2 : z ∈ y :: t := by
          rw [ht2]
          rcases List.mem_cons.1 hz with rfl | hz
          · exact List.mem_cons_self _ _
          · exact List.mem_cons_of_mem _ (List.mem_append_left _ hz)
        have hz3 : z ∈ s := by
          rw [hsplit]
          exact List.mem_append_right _ (List.mem_cons_of_mem _ hz2)
        refine (notSpaceAt_iff z).2 ⟨by simpa using hws z hz3, ?_⟩
        intro h0
        exact hnafter (h0 ▸ hz2)
      · intro z hz
        have hz2 : z ∈ y :: t := by
          rw [ht2]
          exact List.mem_cons_of_mem _
            (List.mem_append_right _ (List.mem_cons_of_mem _ hz))
        have hz3 : z ∈ s := by
          rw [hsplit]
          exact List.mem_append_right _ (List.mem_cons_of_mem _ hz2)
        refine (notSpaceAt_iff z).2 ⟨by simpa using hws z hz3, ?_⟩
        intro h0
        exact hnafter (h0 ▸ hz2)

theorem emailRx_eq_emailShape (s : JSString) : rxTest emailRx s = emailShape s := by
  cases h : emailShape s with
  | true =>
    obtain ⟨a, b, c, hs, ha, hb, hc, halla, hallb, hallc⟩ := split_of_emailShape h
    exact (emailRx_iff_split s).2 ⟨a, b, c, hs, ha, hb, hc, halla, hallb, hallc⟩
  | false =>
    cases h2 : rxTest emailRx s with
    | false => rfl
    | true =>
      obtain ⟨a, b, c, hs, ha, hb, hc, halla, hallb, hallc⟩ := (emailRx_iff_split s).1 h2
      rw [emailShape_of_split hs ha hb hc halla hallb hallc] at h
      cases h

/-- C19 — email shape accepted by `emailRx`: the pattern accepts a string
exactly when it contains no white space, exactly one `@` with at least one
character before it, and after the `@` a `.` that is neither the first nor the
last character; and once name and mobile have passed, the signup handler
reports `InvalidEmail` exactly when the trimmed, lower-cased email fails this
test. -/
theorem emailRx_accepts_email_shape :
    (∀ s : JSString, rxTest emailRx s = emailShape s) ∧
    (∀ (rt : Runtime) (now : Nat) (form : SignupForm) (st : State),
      trim form.name ≠ [] → isTenDigits (trim form.mobile) = true →
      ((signup rt now form st).1 = .InvalidEmail ↔
        emailShape (rt.toLowerCase (trim form.email)) = false)) := by
  refine ⟨emailRx_eq_emailShape, ?_⟩
  intro rt now form st hname hmobile
  have h1 : (trim form.name).isEmpty = false := by
    cases h : trim form.name with
    | nil => exact absurd h hname
    | cons c t => rfl
  have h2 : rxTest mobileRx (trim form.mobile) = true := by
    rw [mobileRx_eq_isTenDigits, hmobile]
  rw [signup_outcome_eq, ← emailRx_eq_emailShape]
  simp only [h1, h2, normalizeEmail, Bool.false_eq_true, if_false, Bool.true_eq_false]
  cases h3 : rxTest emailRx (rt.toLowerCase (trim form.email)) with
  | false => simp
  | true =>
    simp only [Bool.true_eq_false, if_false, iff_false]
    split_ifs <;> simp

/-- Witness of C19: the email `ann@x`, with no dot after the `@`, is reported
as `InvalidEmail`. -/
theorem emailRx_accepts_email_shape_witness :
    rxTest emailRx "ann@x".toList = false ∧
    (signup sampleRuntime 0 (sampleForm "Ann" "1111111111" "ann@x") State.empty).1 =
      .InvalidEmail :=
  ⟨(emailRx_accepts_email_shape.1 "ann@x".toList).trans (by decide),
   (emailRx_accepts_email_shape.2 sampleRuntime 0 (sampleForm "Ann" "1111111111" "ann@x")
      State.empty (by decide) (by decide)).2 (by decide)⟩

/-! ## The handlers on a malformed account blob -/

theorem loadAccounts_of_parse {parse : JSONParse} {text : JSString} {value : JSValue}
    (ht : text ≠ []) (h : parse text = some value) :
    loadAccounts parse (some text) = value := by
  have h0 : text.isEmpty = false := by
    cases text with
    | nil => exact absurd rfl ht
    | cons c t => rfl
  simp only [loadAccounts, h0, Bool.false_eq_true, if_false, h]

/-- C14, with the input on which the code departs from it: `loadAccounts`
returns the empty mapping when the item is absent, is the empty string or does
not parse, and otherwise returns whatever `JSON.parse` gives; for the text
`null` it returns `null`, which is not a mapping. -/
theorem loadAccounts_on_blob (parse : JSONParse)
    (hobject : parse "{}".toList = some (.object []))
    (hnull : parse "null".toList = some .null) :
    loadAccounts parse none = .object [] ∧
    loadAccounts parse (some []) = .object [] ∧
    (∀ text, parse text = none → loadAccounts parse (some text) = .object []) ∧
    (∀ text value, text ≠ [] → parse text = some value →
      loadAccounts parse (some text) = value) ∧
    loadAccounts parse (some "null".toList) = .null ∧
    loadAccounts parse (some "null".toList) ≠ .object [] := by
  have hn : loadAccounts parse (some "null".toList) = .null :=
    loadAccounts_of_parse (by decide) hnull
  refine ⟨?_, ?_, ?_, fun text value ht h => loadAccounts_of_parse ht h, hn, ?_⟩
  · simp only [loadAccounts, hobject]
  · simp only [loadAccounts, List.isEmpty_nil, if_true, hobject]
  · intro text h
    by_cases h0 : text.isEmpty = true
    · simp only [loadAccounts, h0, if_true, hobject]
    · simp only [loadAccounts, h0, Bool.false_eq_true, if_false, h]
  · rw [hn]
    intro h
    cases h

/-- Witness of C14 with the stand-in parser. -/
theorem loadAccounts_on_blob_witness :
    loadAccounts sampleParse (some "null".toList) = .null ∧
    loadAccounts sampleParse (some "not json".toList) = .object [] :=
  ⟨(loadAccounts_on_blob sampleParse rfl rfl).2.2.2.2.1,
   (loadAccounts_on_blob sampleParse rfl rfl).2.2.1 _ rfl⟩

theorem someMobile_null (mobile : JSString) (rest : List JSValue) :
    someMobile mobile (.null :: rest) = .error .typeError := rfl

theorem findMobile_null (userInput : JSString) (rest : List JSValue) :
    findMobile userInput (.null :: rest) = .error .typeError := rfl

/-- C15, on the inputs on which the code departs from it: when the account
blob is the text `null`, every signup that passes the five shape checks and
every login with a non-empty identifier and password end with an uncaught
`TypeError`; so do they when the blob is a mapping whose only record is `null`
(for login, unless the identifier names a member of `Object.prototype`). -/
theorem handlers_throw_on_malformed_blob (parse : JSONParse)
    (hnull : parse "null".toList = some .null)
    (rt : Runtime) (now : Nat) (form : SignupForm) (user p key : JSString)
    (hshape : shapeOK rt form = true) (hu : rt.toLowerCase (trim user) ≠ []) (hp : p ≠ [])
    (hproto : rt.toLowerCase (trim user) ∉ objectPrototypeKeys) :
    ParsedAccounts.ofValue (loadAccounts parse (some "null".toList)) = some .null ∧
    signupOn rt now form .null = .error .typeError ∧
    loginOn rt user p .null = .error .typeError ∧
    signupOn rt now form (.object [(key, .null)]) = .error .typeError ∧
    loginOn rt user p (.object [(key, .null)]) = .error .typeError := by
  simp only [shapeOK, Bool.and_eq_true, Bool.not_eq_true', decide_eq_true_eq] at hshape
  obtain ⟨⟨⟨⟨h1, h2⟩, h3⟩, h4⟩, h5⟩ := hshape
  have hat := emailRx_mem_at h3
  unfold normalizeEmail at h3 hat
  have h4n : ¬ jsLength form.password < 6 := by omega
  have h5n : (form.password != form.confirm) = false := by simp [h5]
  have hu2 : (rt.toLowerCase (trim user)).isEmpty = false := by
    cases h : rt.toLowerCase (trim user) with
    | nil => exact absurd h hu
    | cons c t => rfl
  have hp2 : p.isEmpty = false := by
    cases p with
    | nil => exact absurd rfl hp
    | cons c t => rfl
  refine ⟨?_, ?_, ?_, ?_, ?_⟩
  · rw [loadAccounts_of_parse (by decide) hnull]
    rfl
  · simp only [signupOn, h1, h2, h3, if_neg h4n, h5n, Bool.false_eq_true, if_false,
      Bool.not_true]
  · simp only [loginOn, hu2, hp2, Bool.or_self, Bool.false_eq_true, if_false]
  · simp only [signupOn, h1, h2, h3, if_neg h4n, h5n, Bool.false_eq_true, if_false,
      Bool.not_true, List.map_cons, List.map_nil, someMobile_null]
    by_cases hk : rt.toLowerCase (trim form.email) = key
    · simp [List.lookup, hk, JSValue.truthy]
    · have hk2 : (rt.toLowerCase (trim form.email) == key) = false := by simpa using hk
      simp [List.lookup, hk2, not_proto_of_mem_at hat]
  · simp only [loginOn, hu2, hp2, Bool.or_self, Bool.false_eq_true, if_false, List.map_cons,
      List.map_nil, findMobile_null]
    by_cases hk : rt.toLowerCase (trim user) = key
    · simp [List.lookup, hk, JSValue.truthy, Except.map]
    · have hk2 : (rt.toLowerCase (trim user) == key) = false := by simpa using hk
      simp [List.lookup, hk2, hproto, Except.map]

/-- Witness of C15: the registration and the login of the scenario on the blob
`null` and on a mapping with a `null` record. -/
theorem handlers_throw_on_malformed_blob_witness :
    ParsedAccounts.ofValue (loadAccounts sampleParse (some "null".toList)) = some .null ∧
    signupOn sampleRuntime 0 ashaForm .null = .error .typeError ∧
    loginOn sampleRuntime "9876543210".toList "secret1".toList .null = .error .typeError ∧
    signupOn sampleRuntime 0 ashaForm (.object [("bob@x.com".toList, .null)]) =
      .error .typeError ∧
    loginOn sampleRuntime "9876543210".toList "secret1".toList
      (.object [("bob@x.com".toList, .null)]) = .error .typeError :=
  handlers_throw_on_malformed_blob sampleParse rfl sampleRuntime 0 ashaForm
    "9876543210".toList "secret1".toList "bob@x.com".toList (by decide) (by decide)
    (by decide) (by decide)

/-! ## The handlers on a well-formed account blob -/

theorem lookup_encodeAccounts (m : AccountMap) (k : JSString) :
    (encodeAccounts m).lookup k = (m.lookup k).map Account.toValue := by
  induction m with
  | nil => rfl
  | cons e m ih =>
    obtain ⟨ek, ea⟩ := e
    simp only [encodeAccounts, List.map_cons, List.lookup_cons] at ih ⊢
    cases hk : k == ek with
    | true => rfl
    | false => exact ih

theorem someMobile_encodeAccounts (mobile : JSString) (m : AccountMap) :
    someMobile mobile ((encodeAccounts m).map Prod.snd) =
      .ok ((values m).any fun a => a.mobile == mobile) := by
  induction m with
  | nil => rfl
  | cons e m ih =>
    obtain ⟨ek, ea⟩ := e
    simp only [encodeAccounts, List.map_cons, values, List.any_cons] at ih ⊢
    have hf : ea.toValue.field "mobile" = .ok (some (.string ea.mobile)) := rfl
    simp only [someMobile, hf]
    by_cases hm : ea.mobile = mobile
    · simp [hm]
    · have hm2 : (ea.mobile == mobile) = false := by simpa using hm
      simp only [if_neg hm, hm2, Bool.false_or]
      exact ih

theorem findMobile_encodeAccounts (userInput : JSString) (m : AccountMap) :
    findMobile userInput ((encodeAccounts m).map Prod.snd) =
      .ok (((values m).find? fun a => a.mobile == userInput).map Account.toValue) := by
  induction m with
  | nil => rfl
  | cons e m ih =>
    obtain ⟨ek, ea⟩ := e
    simp only [encodeAccounts, List.map_cons, values] at ih ⊢
    have hf : ea.toValue.field "mobile" = .ok (some (.string ea.mobile)) := rfl
    simp only [findMobile, hf]
    by_cases hm : ea.mobile = userInput
    · simp [hm]
    · have hm2 : (ea.mobile == userInput) = false := by simpa using hm
      simp only [if_neg hm, List.find?_cons, hm2]
      exact ih

theorem setValue_encodeAccounts {m : AccountMap} {k : JSString} (h : m.lookup k = none)
    (a : Account) : setValue (encodeAccounts m) k a.toValue = encodeAccounts (m ++ [(k, a)]) := by
  unfold setValue
  rw [if_neg]
  · simp [encodeAccounts]
  · intro hany
    rw [List.any_eq_true] at hany
    obtain ⟨e, he, hk⟩ := hany
    simp only [encodeAccounts, List.mem_map] at he
    obtain ⟨e0, he0, rfl⟩ := he
    have hk2 : e0.1 = k := by simpa using hk
    have := List.lookup_eq_none_iff.1 h e0 he0
    simp [hk2] at this

/-- On the parsed object of a well-formed account map the signup handler
throws nothing: it ends with the outcome of `signup` and saves, on success, the
object of the new map. -/
theorem signupOn_encodeAccounts (rt : Runtime) (now : Nat) (form : SignupForm) (st : State) :
    signupOn rt now form (.object (encodeAccounts st.accounts)) =
      .ok ((signup rt now form st).1,
        if (signup rt now form st).1 = .Success then
          some (.object (encodeAccounts (signup rt now form st).2.accounts))
        else none) := by
  by_cases hs : shapeOK rt form = true
  · rw [signup_of_shape rt now form st hs]
    simp only [shapeOK, Bool.and_eq_true, Bool.not_eq_true', decide_eq_true_eq] at hs
    obtain ⟨⟨⟨⟨h1, h2⟩, h3⟩, h4⟩, h5⟩ := hs
    have hat := emailRx_mem_at h3
    unfold normalizeEmail at h3 hat
    have h4n : ¬ jsLength form.password < 6 := by omega
    have h5n : (form.password != form.confirm) = false := by simp [h5]
    simp only [signupOn, h1, h2, h3, if_neg h4n, h5n, Bool.false_eq_true, if_false,
      Bool.not_true, lookup_encodeAccounts, someMobile_encodeAccounts, normalizeEmail]
    cases hl : st.accounts.lookup (rt.toLowerCase (trim form.email)) with
    | some a => simp [Account.toValue, JSValue.truthy]
    | none =>
      simp only [Option.map_none', not_proto_of_mem_at hat, decide_False, Bool.false_eq_true,
        if_false, Option.isSome_none]
      cases hm : (values st.accounts).any (fun a => a.mobile == trim form.mobile) with
      | true => simp
      | false =>
        simp only [Bool.false_eq_true, if_false, if_true]
        rw [← setValue_encodeAccounts hl]
        rfl
  · have hs2 : shapeOK rt form = false := by simpa using hs
    simp only [shapeOK, normalizeEmail] at hs2
    simp only [signupOn, signup]
    split_ifs <;> simp_all

/-- The last steps of the login handler on a well-formed record: the hash
comparison, and on success the session object. -/
theorem loginOn_record_steps (hash : JSString) (a : Account) :
    (match a.toValue with
      | .object fields =>
        match fields.lookup "passHash".toList with
        | some (.string stored) =>
          if hash != stored then
            (.ok (.IncorrectPassword, none) : Except JSError (LoginOutcome × Option JSValue))
          else
            .ok (.Success, some (.object (definedProps
              [("name", fields.lookup "name".toList),
               ("email", fields.lookup "email".toList),
               ("mobile", fields.lookup "mobile".toList),
               ("city", fields.lookup "city".toList)])))
        | _ => .ok (.IncorrectPassword, none)
      | _ => .ok (.IncorrectPassword, none)) =
    if hash = a.passHash then .ok (.Success, some (sessionOf a).toValue)
    else .ok (.IncorrectPassword, none) := by
  have h1 : List.lookup "passHash".toList
      [("name".toList, JSValue.string a.name), ("mobile".toList, .string a.mobile),
       ("email".toList, .string a.email), ("city".toList, .string a.city),
       ("passHash".toList, .string a.passHash), ("createdAt".toList, .number a.createdAt)] =
      some (.string a.passHash) := rfl
  simp only [Account.toValue, h1]
  by_cases hh : hash = a.passHash
  · rw [if_pos hh]
    simp only [hh, bne_self_eq_false, Bool.false_eq_true, if_false]
    rfl
  · have hne : (hash != a.passHash) = true := by simpa using hh
    rw [if_neg hh]
    simp only [hne, if_true]

/-- On the parsed object of a well-formed account map the login handler throws
nothing: it ends with the outcome of `login` and stores, on success, the object
of the session. -/
theorem loginOn_encodeAccounts (rt : Runtime) (user p : JSString) (st : State) :
    loginOn rt user p (.object (encodeAccounts st.accounts)) =
      .ok ((login rt user p st).1,
        if (login rt user p st).1 = .Success then
          (login rt user p st).2.current.map Session.toValue
        else none) := by
  by_cases hu : rt.toLowerCase (trim user) = []
  · simp [loginOn, login, hu]
  by_cases hp : p = []
  · simp [loginOn, login, hp]
  have hu2 : (rt.toLowerCase (trim user)).isEmpty = false := by
    cases h : rt.toLowerCase (trim user) with
    | nil => exact absurd h hu
    | cons c t => rfl
  have hp2 : p.isEmpty = false := by
    cases p with
    | nil => exact absurd rfl hp
    | cons c t => rfl
  have hrecord : ∀ a : Account, resolve st.accounts (rt.toLowerCase (trim user)) = .record a →
      (if sha256hex rt p = a.passHash then
          (.ok (.Success, some (sessionOf a).toValue) :
            Except JSError (LoginOutcome × Option JSValue))
        else .ok (.IncorrectPassword, none)) =
      .ok ((login rt user p st).1,
        if (login rt user p st).1 = .Success then
          (login rt user p st).2.current.map Session.toValue
        else none) := by
    intro a hr
    rw [login_of_record rt user p st hu hp hr]
    by_cases hh : sha256hex rt p = a.passHash
    · simp [hh]
    · simp [hh]
  simp only [loginOn, hu2, hp2, Bool.or_self, Bool.false_eq_true, if_false,
    lookup_encodeAccounts, findMobile_encodeAccounts]
  cases hl : st.accounts.lookup (rt.toLowerCase (trim user)) with
  | some a =>
    have htr : a.toValue.truthy = true := rfl
    simp only [Option.map_some', htr, if_true]
    rw [loginOn_record_steps]
    exact hrecord a (resolve_of_lookup hl)
  | none =>
    simp only [Option.map_none']
    by_cases hproto : rt.toLowerCase (trim user) ∈ objectPrototypeKeys
    · simp only [hproto, if_true]
      rw [login_of_inherited rt user p st hu hp (resolve_inherited hl hproto)]
      simp
    · simp only [hproto, if_false, Except.map]
      cases hf : (values st.accounts).find? (fun a => a.mobile == rt.toLowerCase (trim user)) with
      | none =>
        simp only [Option.map_none']
        rw [login_of_undefined rt user p st hu hp (resolve_undefined hl hproto hf)]
        simp
      | some a =>
        simp only [Option.map_some']
        rw [loginOn_record_steps]
        exact hrecord a (resolve_of_mobile hl hproto hf)

end Auth
